import Mathlib

/-!
# Verification of the audit_report ingestion / aggregation / flow engine

Shallow embedding of the core of the `audit_report` repository (a TypeScript
Telegram sales-CRM bot) and proofs of the frozen specification claims.

Modelling conventions:
* JavaScript strings are modelled as `List Char` (named `Str` below) so that
  trimming, splitting and character scanning can be reasoned about directly.
* `Date.now()` timestamps and `created_at` values are `Nat` (milliseconds).
* `string | null` fields are `Option Str`; JS `undefined` and `null` both map
  to `none`.
* Process-local `Map` objects are association lists `List (Nat × α)` with
  JS `Map.get/set/delete` semantics.
* Side effects (chat replies, repository reads and writes) are returned as
  explicit effect lists; the external store's behaviour where a handler
  depends on it is passed in as a parameter.
-/

namespace AuditReport

/-- JavaScript strings, modelled as lists of characters. -/
abbrev Str := List Char

/-- Whitespace as recognised by JS `String.prototype.trim` and `\s`
(restricted to the characters that actually occur in this system). -/
def isWsChar (c : Char) : Bool :=
  c = ' ' || c = '\t' || c = '\n' || c = '\r'

/-- `s.trim()`: drop whitespace from both ends. -/
def trimStr (s : Str) : Str :=
  ((s.dropWhile isWsChar).reverse.dropWhile isWsChar).reverse

/-- Split a character list at every occurrence of the separator character
(JS `String.prototype.split` with a single-character separator). -/
def splitOnChar (sep : Char) : Str → List Str
  | [] => [[]]
  | c :: cs =>
    let rest := splitOnChar sep cs
    if c = sep then [] :: rest
    else match rest with
      | [] => [[c]]
      | r :: rs => (c :: r) :: rs

/-- `message.split(/\r?\n/).map(l => l.trim()).filter(Boolean)`:
the `\r` of a CRLF pair is removed by the per-line trim. -/
def splitLines (msg : Str) : List Str :=
  ((splitOnChar '\n' msg).map trimStr).filter (· ≠ [])

/-- Lower-case a character list (JS `toLowerCase`). -/
def lowerStr (s : Str) : Str := s.map Char.toLower

/-! ## Reason classification registry (`src/constants/reason-codes.ts`) -/

/-- The ten fixed (code, label) pairs of `REASON_CODES`, in source order. -/
def REASON_CODES : List (Str × Str) :=
  [("A".toList, "ថ្លៃពេក".toList),
   ("B".toList, "ទីតាំងមិនត្រូវ".toList),
   ("C".toList, "មិនមែនអ្នកសម្រេច".toList),
   ("D".toList, "គ្មានចំណាប់អារម្មណ៍".toList),
   ("E".toList, "ត្រូវការកម្ចីច្រើន".toList),
   ("F".toList, "ជំពាក់គេច្រើន".toList),
   ("G".toList, "ខូច CBC".toList),
   ("H".toList, "ដីឬផ្ទះតូចពេក".toList),
   ("I".toList, "ចាំរកថ្ងៃទំនេរមកមើល".toList),
   ("J".toList, "ផ្សេងៗ".toList)]

/-- The `"CODE - label"` display string used by the menu and by the parser's
exact-string branch. -/
def fullLabel (p : Str × Str) : Str := p.1 ++ (" - ".toList ++ p.2)

/-- The single-letter branch of `parseReasonCode`: the regex
`/^[A-J]$/i` followed by `toUpperCase()`.  The character class `[A-J]` under
the `i` flag matches exactly the letters `A`–`J` in either case; the embedding
enumerates that class. -/
def letterMatch (t : Str) : Option Str :=
  match t with
  | [c] =>
    if 'A' ≤ c ∧ c ≤ 'J' then some [c]
    else if 'a' ≤ c ∧ c ≤ 'j' then some [c.toUpper]
    else none
  | _ => none

/-- `parseReasonCode` from `reason-codes.ts`: trim; empty → no match; a single
letter `A`–`J` (case-insensitive) → the upper-cased code; otherwise the exact
`"CODE - label"` string of one of the ten registry entries → that code;
anything else → no match. -/
def parseReasonCode (input : Str) : Option Str :=
  let trimmed := trimStr input
  if trimmed = [] then none
  else match letterMatch trimmed with
    | some c => some c
    | none => (REASON_CODES.find? (fun p => trimmed = fullLabel p)).map (·.1)

/-! ## Header form parser (`src/parser/header-form-parser.ts`)

The deterministic local path (`looksLikeHeader`, `parseLocally`,
`validateHeaderData`).  The optional AI-assisted path is only taken when an
API key is configured and its result must pass the same `validateHeaderData`;
the embedding models the deterministic authority. -/

/-- The literal marker line. -/
def hdrMarker : Str := "HDR".toList

def DATE_KEY : Str := "DATE".toList
def NAME_KEY : Str := "NAME".toList
def PHONE_KEY : Str := "PHONE".toList
def PAGE_KEY : Str := "PAGE".toList
def FOLLOWER_KEY : Str := "FOLLOWER".toList

/-- `allowedKeys = new Set(['DATE','NAME','PHONE','PAGE','FOLLOWER'])`. -/
def allowedKeysL : List Str := [DATE_KEY, NAME_KEY, PHONE_KEY, PAGE_KEY, FOLLOWER_KEY]

/-- Validated header data (all five fields present, trimmed). -/
structure HeaderFormData where
  date : Str
  name : Str
  phone : Str
  page : Str
  follower : Str
deriving DecidableEq, Repr

/-- The partially collected `data` record of `parseLocally`
(`Partial<HeaderFormData>` in the source). -/
structure HeaderDraft where
  date : Option Str
  name : Option Str
  phone : Option Str
  page : Option Str
  follower : Option Str
deriving DecidableEq, Repr

def emptyDraft : HeaderDraft := ⟨none, none, none, none, none⟩

/-- Error outcomes of the header parser; each constructor corresponds to one
of the error strings produced by the source. -/
inductive HeaderError where
  /-- 'Header must start with HDR.' / 'Missing HDR header line.' -/
  | missingHDR
  /-- 'Invalid header line format.' -/
  | invalidLine
  /-- 'Unknown header field: KEY' -/
  | unknownField (k : Str)
  /-- 'Missing value for KEY.' -/
  | missingValue (k : Str)
  /-- 'Duplicate field: KEY' -/
  | duplicateField (k : Str)
  /-- 'Missing KEY field.' -/
  | missingField (k : Str)
  /-- 'DATE must be YYYY-MM-DD.' -/
  | badDate
deriving DecidableEq, Repr

/-- `{valid:true, data}` or `{valid:false, error}` — the function never
throws, every outcome is one of these two shapes. -/
inductive HeaderFormResult where
  | ok (data : HeaderFormData)
  | err (e : HeaderError)
deriving DecidableEq, Repr

def isUpperAZ (c : Char) : Bool := 'A' ≤ c && c ≤ 'Z'

def isDigitChar (c : Char) : Bool := '0' ≤ c && c ≤ '9'

/-- The per-line grammar `^([A-Z]+)\s*:\s*(.+)$`.  Returns the key and the raw
text after the colon (before the caller's `.trim()`); `none` when the line
does not match.  A remainder that is pure whitespace still matches the regex
(`\s*` backtracks so that `(.+)` keeps one character) and is rejected later by
the empty-value check, so only an empty remainder is a non-match. -/
def parseHeaderLine (line : Str) : Option (Str × Str) :=
  let key := line.takeWhile isUpperAZ
  let rest := (line.dropWhile isUpperAZ).dropWhile isWsChar
  if key = [] then none
  else match rest with
    | ':' :: r => if r = [] then none else some (key, r)
    | _ => none

/-- The regex `^\d{4}-\d{2}-\d{2}$` used on the DATE value. -/
def isIsoDate (s : Str) : Bool :=
  match s with
  | [a, b, c, d, e, f, g, h, i, j] =>
    isDigitChar a && isDigitChar b && isDigitChar c && isDigitChar d &&
    e = '-' && isDigitChar f && isDigitChar g && h = '-' &&
    isDigitChar i && isDigitChar j
  | _ => false

/-- `data[key.toLowerCase()]` read access on the draft record. -/
def getField (s : HeaderDraft) (k : Str) : Option Str :=
  if k = DATE_KEY then s.date
  else if k = NAME_KEY then s.name
  else if k = PHONE_KEY then s.phone
  else if k = PAGE_KEY then s.page
  else if k = FOLLOWER_KEY then s.follower
  else none

/-- `data[key.toLowerCase()] = value` write access on the draft record. -/
def setField (s : HeaderDraft) (k v : Str) : HeaderDraft :=
  if k = DATE_KEY then { s with date := some v }
  else if k = NAME_KEY then { s with name := some v }
  else if k = PHONE_KEY then { s with phone := some v }
  else if k = PAGE_KEY then { s with page := some v }
  else if k = FOLLOWER_KEY then { s with follower := some v }
  else s

/-- Is an optional field present and not whitespace-only
(`!value || value.trim() === ''` in `validateHeaderData`)? -/
def fieldPresent (v : Option Str) : Bool :=
  match v with
  | none => false
  | some x => !(trimStr x).isEmpty

/-- `validateHeaderData`: all five required fields present and non-blank (in
the fixed order date, name, phone, page, follower — the first missing one is
reported), the date matching `^\d{4}-\d{2}-\d{2}$`; on success the five
trimmed values are returned. -/
def validateHeaderData (s : HeaderDraft) : HeaderFormResult :=
  if ¬ fieldPresent s.date then .err (.missingField DATE_KEY)
  else if ¬ fieldPresent s.name then .err (.missingField NAME_KEY)
  else if ¬ fieldPresent s.phone then .err (.missingField PHONE_KEY)
  else if ¬ fieldPresent s.page then .err (.missingField PAGE_KEY)
  else if ¬ fieldPresent s.follower then .err (.missingField FOLLOWER_KEY)
  else if ¬ isIsoDate (s.date.getD []) then .err .badDate
  else .ok ⟨trimStr (s.date.getD []), trimStr (s.name.getD []),
            trimStr (s.phone.getD []), trimStr (s.page.getD []),
            trimStr (s.follower.getD [])⟩

/-- The body loop of `parseLocally` over `lines.slice(1)`: each line must
match the line grammar, carry a whitelisted key, a non-blank value, and no
key may repeat; then `validateHeaderData` runs on the collected record. -/
def processHeaderLines : List Str → HeaderDraft → HeaderFormResult
  | [], s => validateHeaderData s
  | line :: rest, s =>
    match parseHeaderLine line with
    | none => .err .invalidLine
    | some (k, r) =>
      if k ∈ allowedKeysL then
        let v := trimStr r
        if v = [] then .err (.missingValue k)
        else if (getField s k).isSome then .err (.duplicateField k)
        else processHeaderLines rest (setField s k v)
      else .err (.unknownField k)

/-- `parseLocally` after its split/trim/filter preprocessing: the first
surviving line must be the literal `HDR` marker, then the body loop runs. -/
def parseHeaderLines (lines : List Str) : HeaderFormResult :=
  match lines with
  | [] => .err .missingHDR
  | l :: rest => if l = hdrMarker then processHeaderLines rest emptyDraft else .err .missingHDR

/-- `HeaderFormParser.parseLocally` on the raw message text. -/
def parseLocally (msg : Str) : HeaderFormResult :=
  parseHeaderLines (splitLines msg)

/-- `looksLikeHeader`: the first non-blank trimmed line is exactly `HDR`. -/
def looksLikeHeader (msg : Str) : Bool :=
  match splitLines msg with
  | l :: _ => l = hdrMarker
  | [] => false

/-- `HeaderFormParser.parse` in the deterministic configuration (no API key):
trim the message, require the marker line, then run the local parser. -/
def headerParse (msg : Str) : HeaderFormResult :=
  let trimmed := trimStr msg
  if looksLikeHeader trimmed then parseLocally trimmed else .err .missingHDR

/-! ## Data model (`src/database/models.ts`) and in-memory maps -/

structure Customer where
  name : Option Str
  phone : Option Str
deriving DecidableEq, Repr

structure EventSource where
  telegram_msg_id : Str
  model : Str
deriving DecidableEq, Repr

/-- `LeadEventDocument`: one immutable interaction event as persisted in the
`leads_events` collection.  `created_at` is a millisecond timestamp. -/
structure LeadEventDocument where
  date : Str
  customer : Customer
  page : Option Str
  follower : Option Str
  status_text : Option Str
  reason_code : Option Str
  note : Option Str
  source : EventSource
  created_at : Nat
deriving DecidableEq, Repr

/-- JS `Map.get`. -/
def mapGet {α : Type} (m : List (Nat × α)) (k : Nat) : Option α :=
  (m.find? (fun p => p.1 = k)).map (·.2)

/-- JS `Map.set` (overwrites any previous binding of the key). -/
def mapSet {α : Type} (m : List (Nat × α)) (k : Nat) (v : α) : List (Nat × α) :=
  (k, v) :: m.filter (fun p => p.1 ≠ k)

/-- JS `Map.delete`. -/
def mapDel {α : Type} (m : List (Nat × α)) (k : Nat) : List (Nat × α) :=
  m.filter (fun p => p.1 ≠ k)

/-! ## Sales entry flow (`src/bot/flows/sales-entry-flow.ts`)

The header → reason → note conversational state machine.  Replies and
repository writes are returned as explicit lists; audit-log writes are not
modelled. -/

inductive SalesEntryStep where
  | awaiting_reason
  | awaiting_note
deriving DecidableEq, Repr

structure PendingSalesEntry where
  chatId : Nat
  userId : Nat
  header : HeaderFormData
  step : SalesEntryStep
  reasonCode : Option Str
  expiresAt : Nat
  sourceMessageId : Nat
deriving DecidableEq, Repr

abbrev PendingEntries := List (Nat × PendingSalesEntry)

/-- Messages the flow can send back (constructors correspond to the literal
reply strings of the source). -/
inductive EntryReply where
  /-- 'Entry expired. Please resend the header form.' -/
  | expiredNotice
  /-- the fixed 'choose exactly one (A–J)' message -/
  | chooseOne
  /-- the reason menu (`buildReasonPrompt` + keyboard) -/
  | reasonMenu
  /-- the optional-note prompt -/
  | askNote
  /-- 'Saved.' -/
  | savedNotice
  /-- `getHeaderFormatHelp(error)` -/
  | headerHelp (e : HeaderError)
deriving DecidableEq, Repr

/-- Result of one interaction against the entry flow: whether the message was
handled, the new pending-entry map, the persisted events (`saveLeadEvent`
calls) and the replies sent. -/
structure EntryOutcome where
  handled : Bool
  entries : PendingEntries
  saved : List LeadEventDocument
  replies : List EntryReply
deriving DecidableEq, Repr

/-- `ttlMs = 5 * 60 * 1000`. -/
def entryTtlMs : Nat := 5 * 60 * 1000

/-- `normalizeNote`: trim; empty → null; one of the case-insensitive skip
tokens `-`, `skip`, `none`, `n/a` → null; otherwise the trimmed text. -/
def normalizeNote (text : Str) : Option Str :=
  let trimmed := trimStr text
  if trimmed = [] then none
  else
    let normalized := lowerStr trimmed
    if normalized = "-".toList ∨ normalized = "skip".toList ∨
       normalized = "none".toList ∨ normalized = "n/a".toList then none
    else some trimmed

/-- `saveEntry`: assemble the `LeadEventDocument` persisted on commit. -/
def saveEntryEvent (p : PendingSalesEntry) (note : Option Str) (now : Nat) :
    LeadEventDocument :=
  { date := p.header.date
    customer := ⟨some p.header.name, some p.header.phone⟩
    page := some p.header.page
    follower := some p.header.follower
    status_text := none
    reason_code := p.reasonCode
    note := note
    source := ⟨(toString p.sourceMessageId).toList, "header-form".toList⟩
    created_at := now }

/-- `SalesEntryFlow.handlePending`. -/
def handlePending (now chatId userId : Nat) (text : Str)
    (entries : PendingEntries) : EntryOutcome :=
  if userId = 0 then ⟨false, entries, [], []⟩
  else match mapGet entries userId with
  | none => ⟨false, entries, [], []⟩
  | some pending =>
    if pending.chatId ≠ chatId ∨ pending.expiresAt < now then
      ⟨true, mapDel entries userId, [], [.expiredNotice]⟩
    else match pending.step with
    | .awaiting_reason =>
      match parseReasonCode text with
      | none => ⟨true, entries, [], [.chooseOne, .reasonMenu]⟩
      | some rc =>
        let p' := { pending with reasonCode := some rc, step := .awaiting_note }
        ⟨true, mapSet entries userId p', [], [.askNote]⟩
    | .awaiting_note =>
      match pending.reasonCode with
      | none =>
        let p' := { pending with step := SalesEntryStep.awaiting_reason }
        ⟨true, mapSet entries userId p', [], [.chooseOne, .reasonMenu]⟩
      | some _ =>
        let note := normalizeNote text
        ⟨true, mapDel entries userId, [saveEntryEvent pending note now], [.savedNotice]⟩

/-- `SalesEntryFlow.tryStartFromHeader`: commands are skipped; a parse
failure sends the format help and creates no state; a valid header creates a
pending entry at `awaiting_reason` expiring `ttlMs` from now. -/
def tryStartFromHeader (now chatId userId msgId : Nat) (text : Str)
    (entries : PendingEntries) : EntryOutcome :=
  if (trimStr text).head? = some '/' then ⟨false, entries, [], []⟩
  else if userId = 0 then ⟨false, entries, [], []⟩
  else match headerParse text with
  | .err e => ⟨true, entries, [], [.headerHelp e]⟩
  | .ok data =>
    let p : PendingSalesEntry :=
      ⟨chatId, userId, data, .awaiting_reason, none, now + entryTtlMs, msgId⟩
    ⟨true, mapSet entries userId p, [], [.reasonMenu]⟩

/-! ## Case aggregation pipelines (`src/database/aggregations.ts`)

The MongoDB aggregation pipelines are embedded as list transformations:
`$match` is `filter`, the `$sort` stages are a stable insertion sort under
the corresponding lexicographic key (MongoDB orders `null`/missing below all
strings, hence the `WithBot` phone key), `$group` collects, per distinct
phone key, the matching documents in their sorted order and folds them with
`$first`/`$last`/`$push`/`$sum`, and `$project` reshapes into
`CustomerCase`. -/

structure HistoryEntry where
  date : Str
  status : Option Str
  reason_code : Option Str
  note : Option Str
  created_at : Nat
deriving DecidableEq, Repr

/-- The derived per-customer case view (`CustomerCase` in `models.ts`). -/
structure CustomerCase where
  phone : Option Str
  name : Option Str
  page : Option Str
  follower : Option Str
  first_contact_date : Str
  last_update_date : Str
  current_status : Option Str
  current_reason_code : Option Str
  history : List HistoryEntry
  total_events : Nat
deriving DecidableEq, Repr

/-- MongoDB `$ifNull [a, b]`. -/
def ifNull (a b : Option Str) : Option Str :=
  match a with
  | some x => some x
  | none => b

/-- The sort key used by the `$sort {'customer.phone':1, date:1, created_at:1}`
stage: a missing/null phone orders below every string. -/
def phoneKey (e : LeadEventDocument) : WithBot Str :=
  match e.customer.phone with
  | none => ⊥
  | some p => (p : WithBot Str)

/-- Lexicographic "less or equal" on a primary projection with a tie-break
relation. -/
def lexBy {γ α : Type} [LinearOrder α] (f : γ → α) (r : γ → γ → Prop)
    (a b : γ) : Prop :=
  f a < f b ∨ (f a = f b ∧ r a b)

instance lexByDecidable {γ α : Type} [LinearOrder α] (f : γ → α)
    (r : γ → γ → Prop) [DecidableRel r] : DecidableRel (lexBy f r) := by
  unfold lexBy; infer_instance

/-- `(date, created_at)` ascending — the chronological order inside a phone
group. -/
def dcLe (a b : LeadEventDocument) : Prop :=
  lexBy (·.date) (fun a b => a.created_at ≤ b.created_at) a b

/-- `(customer.phone, date, created_at)` ascending — the full key of the
`$sort` stage before `$group`. -/
def sortKeyLe (a b : LeadEventDocument) : Prop :=
  lexBy phoneKey dcLe a b

instance : DecidableRel dcLe := by unfold dcLe; infer_instance

instance : DecidableRel sortKeyLe := by unfold sortKeyLe; infer_instance

/-- `$sort { last_update_date: -1 }` — descending by last update. -/
def caseDescLe (a b : CustomerCase) : Prop :=
  b.last_update_date ≤ a.last_update_date

instance : DecidableRel caseDescLe := by unfold caseDescLe; infer_instance

instance : IsTrans LeadEventDocument dcLe := by
  constructor
  intro a b c hab hbc
  unfold dcLe lexBy at *
  rcases hab with h1 | ⟨h1, h1r⟩ <;> rcases hbc with h2 | ⟨h2, h2r⟩
  · exact Or.inl (lt_trans h1 h2)
  · exact Or.inl (by rw [← h2]; exact h1)
  · exact Or.inl (by rw [h1]; exact h2)
  · exact Or.inr ⟨h1.trans h2, le_trans h1r h2r⟩

instance : IsTotal LeadEventDocument dcLe := by
  constructor
  intro a b
  unfold dcLe lexBy
  rcases lt_trichotomy a.date b.date with h | h | h
  · exact Or.inl (Or.inl h)
  · rcases le_total a.created_at b.created_at with hr | hr
    · exact Or.inl (Or.inr ⟨h, hr⟩)
    · exact Or.inr (Or.inr ⟨h.symm, hr⟩)
  · exact Or.inr (Or.inl h)

instance : IsTrans LeadEventDocument sortKeyLe := by
  constructor
  intro a b c hab hbc
  unfold sortKeyLe lexBy at *
  rcases hab with h1 | ⟨h1, h1r⟩ <;> rcases hbc with h2 | ⟨h2, h2r⟩
  · exact Or.inl (lt_trans h1 h2)
  · exact Or.inl (by rw [← h2]; exact h1)
  · exact Or.inl (by rw [h1]; exact h2)
  · exact Or.inr ⟨h1.trans h2, IsTrans.trans _ _ _ h1r h2r⟩

instance : IsTotal LeadEventDocument sortKeyLe := by
  constructor
  intro a b
  unfold sortKeyLe lexBy
  rcases lt_trichotomy (phoneKey a) (phoneKey b) with h | h | h
  · exact Or.inl (Or.inl h)
  · rcases IsTotal.total (r := dcLe) a b with hr | hr
    · exact Or.inl (Or.inr ⟨h, hr⟩)
    · exact Or.inr (Or.inr ⟨h.symm, hr⟩)
  · exact Or.inr (Or.inl h)

instance : IsTrans CustomerCase caseDescLe := by
  constructor
  intro a b c hab hbc
  exact le_trans hbc hab

instance : IsTotal CustomerCase caseDescLe := by
  constructor
  intro a b
  exact (le_total b.last_update_date a.last_update_date).imp id id

/-- One history entry as `$push`ed by the `$group` stage. -/
def mkHistoryEntry (e : LeadEventDocument) : HistoryEntry :=
  ⟨e.date, ifNull e.reason_code e.status_text, e.reason_code, e.note, e.created_at⟩

/-- The `$group` + `$project` stages applied to one phone group `g`, given in
the order produced by the `$sort` stage: `$first` reads the first document of
the group, `$last` the last one, `$push` keeps the whole ordered group and
`$sum 1` its size. -/
def mkCase (p : Option Str) (g : List LeadEventDocument) : CustomerCase :=
  let lastE := g.getLast?
  { phone := p
    name := lastE.bind (·.customer.name)
    page := lastE.bind (·.page)
    follower := lastE.bind (·.follower)
    first_contact_date := (g.head?.map (·.date)).getD []
    last_update_date := (lastE.map (·.date)).getD []
    current_status := lastE.bind (fun e => ifNull e.reason_code e.status_text)
    current_reason_code := lastE.bind (·.reason_code)
    history := g.map mkHistoryEntry
    total_events := g.length }

/-- Stages 2–5 shared by both pipelines: sort by `(phone, date, created_at)`,
group by phone (each distinct phone key collects exactly the documents whose
phone equals it, in sorted order), project to `CustomerCase`, sort by
`last_update_date` descending. -/
def aggregateCases (matched : List LeadEventDocument) : List CustomerCase :=
  let sorted := matched.insertionSort sortKeyLe
  let keys := (sorted.map (·.customer.phone)).dedup
  let cases := keys.map
    (fun p => mkCase p (sorted.filter (fun e => decide (e.customer.phone = p))))
  cases.insertionSort caseDescLe

def natToStr (n : Nat) : Str := (toString n).toList

/-- `String(n).padStart(2, '0')`. -/
def pad2 (n : Nat) : Str :=
  if n < 10 then '0' :: natToStr n else natToStr n

def isLeapYear (y : Nat) : Bool :=
  (y % 4 = 0 && decide (y % 100 ≠ 0)) || y % 400 = 0

/-- `new Date(year, monthNum, 0).getDate()` — the number of days in the
(1-based) month. -/
def daysInMonth (y m : Nat) : Nat :=
  if m = 2 then (if isLeapYear y then 29 else 28)
  else if m = 4 ∨ m = 6 ∨ m = 9 ∨ m = 11 then 30
  else 31

/-- `parseInt(s, 10)` on the decimal strings produced by month splitting. -/
def parseIntStr (s : Str) : Nat :=
  (s.takeWhile isDigitChar).foldl (fun acc c => acc * 10 + (c.toNat - '0'.toNat)) 0

/-- `getMonthDateRange`: `"current"` resolves against the supplied wall-clock
year/month pair (`new Date()` in the source); an explicit `"YYYY-MM"` is
split and parsed.  Returns the `YYYY-MM-01` / `YYYY-MM-lastday` bounds. -/
def getMonthDateRange (nowYM : Nat × Nat) (month : Str) : Str × Str :=
  let ym :=
    if month = "current".toList then nowYM
    else match splitOnChar '-' month with
      | yearStr :: monthStr :: _ => (parseIntStr yearStr, parseIntStr monthStr)
      | l => (parseIntStr (l.headD []), 0)
  let startDate := natToStr ym.1 ++ ('-' :: pad2 ym.2) ++ "-01".toList
  let endDate := natToStr ym.1 ++ ('-' :: pad2 ym.2) ++ ('-' :: pad2 (daysInMonth ym.1 ym.2))
  (startDate, endDate)

/-- `$match { date: {$gte: startDate, $lte: endDate} }` (string comparison). -/
def inDateRange (startDate endDate : Str) (e : LeadEventDocument) : Bool :=
  decide (startDate ≤ e.date) && decide (e.date ≤ endDate)

/-- Stage 1 of `buildCasesByFollowerAndMonthPipeline`:
`$match { follower, date: {$gte,$lte} }`. -/
def matchedByFollowerAndMonth (nowYM : Nat × Nat) (follower month : Str)
    (evs : List LeadEventDocument) : List LeadEventDocument :=
  let r := getMonthDateRange nowYM month
  evs.filter (fun e => decide (e.follower = some follower) && inDateRange r.1 r.2 e)

/-- `buildCasesByFollowerAndMonthPipeline` applied to an event set. -/
def buildCasesByFollowerAndMonthPipeline (nowYM : Nat × Nat)
    (follower month : Str) (evs : List LeadEventDocument) : List CustomerCase :=
  aggregateCases (matchedByFollowerAndMonth nowYM follower month evs)

/-- Stage 1 of `buildMonthlyCasesSummaryPipeline`: date-range match only (all
followers).  The month string is built as `` `${year}-${pad2 month}` `` and is
never the literal `"current"`, so the passed clock pair is irrelevant. -/
def matchedByMonth (year month : Nat) (evs : List LeadEventDocument) :
    List LeadEventDocument :=
  let monthStr := natToStr year ++ ('-' :: pad2 month)
  let r := getMonthDateRange (0, 0) monthStr
  evs.filter (fun e => inDateRange r.1 r.2 e)

/-- `buildMonthlyCasesSummaryPipeline` applied to an event set. -/
def buildMonthlyCasesSummaryPipeline (year month : Nat)
    (evs : List LeadEventDocument) : List CustomerCase :=
  aggregateCases (matchedByMonth year month evs)

/-- The chronologically ordered group of events of one phone key inside a
matched event set: the spec's "group remaining events by phone; within each
group sort by `(date, created_at)` ascending". -/
def phoneGroup (p : Option Str) (matched : List LeadEventDocument) :
    List LeadEventDocument :=
  (matched.filter (fun e => decide (e.customer.phone = p))).insertionSort dcLe

/-! ## Parser-level events and update enrichment
(`src/parser/types.ts`, `src/bot/handlers.ts`, `src/database/repository.ts`)
-/

/-- `LeadEvent` as produced by the message parser.  `is_update?: boolean` is
optional in TS; an absent flag behaves exactly like `false` under the
truthiness test `!event.is_update`, so it is modelled as a `Bool`. -/
structure LeadEvent where
  date : Str
  customer : Customer
  page : Option Str
  follower : Option Str
  status_text : Option Str
  source : EventSource
  is_update : Bool
deriving DecidableEq, Repr

/-- `ParseResult = LeadEvent[] | IgnoredMessage`. -/
inductive ParseResult where
  | ignored
  | events (evs : List LeadEvent)
deriving DecidableEq, Repr

/-- JS falsiness of a `string | null` value: `null`, `undefined` and the
empty string are all falsy. -/
def strFalsy (v : Option Str) : Bool :=
  match v with
  | none => true
  | some s => s.isEmpty

/-- `newV || oldV` on `string | null` values (JS `||` substitutes the old
value when the new one is null *or empty*). -/
def orFalsy (newV oldV : Option Str) : Option Str :=
  if strFalsy newV then oldV else newV

/-- `SalesCaseRepository.findLatestEventByPhone`: blank phones are rejected,
otherwise the store is filtered on the trimmed phone and sorted by
`{date: -1, created_at: -1}` with `limit(1)`. -/
def findLatestEventByPhone (store : List LeadEventDocument) (phone : Str) :
    Option LeadEventDocument :=
  if phone = [] ∨ trimStr phone = [] then none
  else
    let normalized := trimStr phone
    ((store.filter (fun e => decide (e.customer.phone = some normalized))).insertionSort
      (fun a b => dcLe b a)).head?

/-- The merge step of `MessageHandlers.enrichWithUpdateDetection` for a single
event, against a lookup into the prior event log. -/
def enrichOne (store : List LeadEventDocument) (event : LeadEvent) : LeadEvent :=
  if !event.is_update || strFalsy event.customer.phone then event
  else
    match event.customer.phone with
    | none => event
    | some ph =>
      match findLatestEventByPhone store ph with
      | none => { event with is_update := false }
      | some existingEvent =>
        { event with
          customer := ⟨orFalsy event.customer.name existingEvent.customer.name,
                       event.customer.phone⟩
          page := orFalsy event.page existingEvent.page
          follower := orFalsy event.follower existingEvent.follower
          status_text := event.status_text }

/-- `enrichWithUpdateDetection` over a batch. -/
def enrichWithUpdateDetection (store : List LeadEventDocument)
    (events : List LeadEvent) : List LeadEvent :=
  events.map (enrichOne store)

/-- `const { is_update, ...eventData } = leadEvent;
{ ...eventData, created_at: new Date() }` — the persisted document: the
`is_update` flag is stripped, `created_at` appended.  The parser-level event
carries no `reason_code`/`note`, so the persisted document's optional fields
are absent (`none`). -/
def leadEventToDoc (e : LeadEvent) (now : Nat) : LeadEventDocument :=
  { date := e.date
    customer := e.customer
    page := e.page
    follower := e.follower
    status_text := e.status_text
    reason_code := none
    note := none
    source := e.source
    created_at := now }

/-! ## Message normalizer (`src/parser/openai-translator.ts`,
`src/parser/message-parser.ts`)

The OpenAI transport is modelled as an environment `ModelEnv` mapping a model
id to the observed response.  Successful (HTTP 200, non-empty content)
responses are modelled at the payload level: the JSON the assistant returned
after fence-stripping/extraction — an ignored marker, an event array, or
content from which no JSON could be extracted. -/

inductive ApiResponse where
  /-- 200 with content whose extracted JSON is `{ignored: true}` -/
  | okIgnored
  /-- 200 with content whose extracted JSON is an event array -/
  | okEvents (evs : List LeadEvent)
  /-- 200 with content yielding no extractable/parsable JSON -/
  | okUnparseable
  /-- 200 with missing or empty `choices[0].message.content` -/
  | emptyContent
  /-- `!response.ok` with the given status and body text -/
  | httpError (status : Nat) (body : Str)
  /-- request timed out (`AbortError`) -/
  | timeout
  /-- other transport failure -/
  | netError
deriving DecidableEq, Repr

/-- The response each model id would produce for the message at hand. -/
abbrev ModelEnv := Str → ApiResponse

/-- `defaultModel = 'gpt-4o-mini'`. -/
def defaultModel : Str := "gpt-4o-mini".toList

/-- Substring test (`String.prototype.includes`). -/
def containsSeg (hay needle : Str) : Bool :=
  hay.tails.any (fun t => needle.isPrefixOf t)

/-- The "model not recognized" class of error:
`response.status === 400 && errorText.toLowerCase().includes('invalid model')`. -/
def isInvalidModelResp : ApiResponse → Bool
  | .httpError status body => status = 400 && containsSeg (lowerStr body) "invalid model".toList
  | _ => false

/-- Everything `callModel` does with a response apart from the invalid-model
retry: interpret a success payload (`parseAiContent`/`normalizePayload`,
where an empty normalized array becomes `{ignored:true}`) and turn every
failure into `null`. -/
def interpretResponse : ApiResponse → Option ParseResult
  | .okIgnored => some .ignored
  | .okEvents evs => some (if evs.isEmpty then .ignored else .events evs)
  | .okUnparseable => none
  | .emptyContent => none
  | .httpError _ _ => none
  | .timeout => none
  | .netError => none

/-- `OpenAITranslator.callModel`: on an invalid-model error with
`allowFallback` set and a non-default model, retry once against
`defaultModel` with `allowFallback = false`; every other failure returns
`null`. -/
def callModel (env : ModelEnv) (aiModel : Str) (allowFallback : Bool) :
    Option ParseResult :=
  if isInvalidModelResp (env aiModel) && allowFallback && decide (aiModel ≠ defaultModel) then
    callModel env defaultModel false
  else interpretResponse (env aiModel)
termination_by (if allowFallback then 1 else 0)
decreasing_by simp_all

/-- The sequence of model ids actually attempted by `callModel`. -/
def attemptedModels (env : ModelEnv) (aiModel : Str) (allowFallback : Bool) :
    List Str :=
  if isInvalidModelResp (env aiModel) && allowFallback && decide (aiModel ≠ defaultModel) then
    [aiModel, defaultModel]
  else [aiModel]

/-- `OpenAITranslator.translate`: `null` without an API key, otherwise one
`callModel` with fallback allowed on the configured model. -/
def translate (apiKey : Bool) (env : ModelEnv) (configuredModel : Str) :
    Option ParseResult :=
  if apiKey then callModel env configuredModel true else none

def isLowerChar (c : Char) : Bool := 'a' ≤ c && c ≤ 'z'

/-- `\w` — JS word characters. -/
def wordChar (c : Char) : Bool :=
  isUpperAZ c || isLowerChar c || isDigitChar c || c = '_'

/-- Case-insensitive literal match at the start of `l`. -/
def ciStartsWith (pat : Str) (l : Str) : Bool :=
  lowerStr (l.take pat.length) = pat

/-- The fixed vague-chatter phrase set of `isVagueMessage`. -/
def vaguePhrases : List Str :=
  ["busy day", "lots of chats", "many customers", "good day",
   "slow day", "no customers", "quiet today"].map String.toList

def platformPats : List Str :=
  ["facebook", "tiktok", "instagram", "whatsapp", "page", "fb"].map String.toList

def statusPats : List Str :=
  ["interested", "not interested", "callback", "follow up", "appointment",
   "meeting", "too far", "too expensive", "will think", "no answer"].map String.toList

/-- `/\d{8,}/.test`: eight consecutive digits anywhere. -/
def hasDigitRun (l : Str) : Bool :=
  l.tails.any (fun t => (t.takeWhile isDigitChar).length ≥ 8)

/-- `/[A-Z][a-z]+/.test`: an upper-case letter directly followed by a
lower-case letter. -/
def hasNameShape (l : Str) : Bool :=
  l.tails.any (fun t =>
    match t with
    | a :: b :: _ => isUpperAZ a && isLowerChar b
    | _ => false)

/-- `/(facebook|tiktok|instagram|whatsapp|page)/i.test`. -/
def hasPlatformKeyword (l : Str) : Bool :=
  (platformPats.take 5).any (fun p => containsSeg (lowerStr l) p)

/-- `MessageParser.hasSpecificData`. -/
def hasSpecificData (msg : Str) : Bool :=
  hasDigitRun msg || hasNameShape msg || hasPlatformKeyword msg

/-- `MessageParser.isVagueMessage`. -/
def isVagueMessage (msg : Str) : Bool :=
  (vaguePhrases.any (fun p => containsSeg (lowerStr msg) p)) && !hasSpecificData msg

/-- Word-boundary test for the character following a match. -/
def boundaryAfter (l : Str) : Bool :=
  match l.head? with
  | none => true
  | some a => !wordChar a

/-- First match of `/\b\d{8,}\b/`: leftmost maximal digit run of length ≥ 8
delimited by word boundaries. -/
def scanPhone : Option Char → Str → Option Str
  | _, [] => none
  | prev, c :: rest =>
    let boundaryOk := match prev with | none => true | some p => !wordChar p
    if boundaryOk && isDigitChar c then
      let run := c :: rest.takeWhile isDigitChar
      if run.length ≥ 8 && boundaryAfter (rest.dropWhile isDigitChar) then some run
      else scanPhone (some c) rest
    else scanPhone (some c) rest

/-- The optional `(?:\s+[A-Z][a-z]+)` second word of the name pattern; the
regex tries this greedy extension first. -/
def tryTwoWords (c : Char) (lows after : Str) : Option Str :=
  let ws := after.takeWhile isWsChar
  if ws.length ≥ 1 then
    match after.dropWhile isWsChar with
    | c2 :: rest2 =>
      if isUpperAZ c2 && (rest2.takeWhile isLowerChar).length ≥ 1 &&
         boundaryAfter (rest2.dropWhile isLowerChar) then
        some ((c :: lows) ++ ws ++ (c2 :: rest2.takeWhile isLowerChar))
      else none
    | [] => none
  else none

/-- First match of `/\b[A-Z][a-z]+(?:\s+[A-Z][a-z]+)?\b/`. -/
def scanName : Option Char → Str → Option Str
  | _, [] => none
  | prev, c :: rest =>
    let boundaryOk := match prev with | none => true | some p => !wordChar p
    if boundaryOk && isUpperAZ c then
      let lows := rest.takeWhile isLowerChar
      if lows.length ≥ 1 then
        match tryTwoWords c lows (rest.dropWhile isLowerChar) with
        | some m => some m
        | none =>
          if boundaryAfter (rest.dropWhile isLowerChar) then some (c :: lows)
          else scanName (some c) rest
      else scanName (some c) rest
    else scanName (some c) rest

/-- Leftmost case-insensitive match among an ordered alternation, returning
the matched slice of the input. -/
def scanFirstCI (pats : List Str) : Str → Option Str
  | [] => none
  | l@(_ :: rest) =>
    match pats.find? (fun p => ciStartsWith p l) with
    | some p => some (l.take p.length)
    | none => scanFirstCI pats rest

/-- First match of `/followed by\s+(\w+)|(\w+)\s+following/i`, returning the
captured word. -/
def scanFollower : Str → Option Str
  | [] => none
  | l@(_ :: rest) =>
    if ciStartsWith "followed by".toList l then
      let afterLit := l.drop 11
      let ws := afterLit.takeWhile isWsChar
      let w := (afterLit.dropWhile isWsChar).takeWhile wordChar
      if ws.length ≥ 1 && w.length ≥ 1 then some w
      else scanFollower rest
    else
      let w := l.takeWhile wordChar
      let afterW := l.dropWhile wordChar
      let ws := afterW.takeWhile isWsChar
      if w.length ≥ 1 && ws.length ≥ 1 &&
         ciStartsWith "following".toList (afterW.dropWhile isWsChar) then some w
      else scanFollower rest

/-- `MessageParser.extractLeadEvents`: regex extraction of phone, name, page,
follower and status; exactly one event when a name or phone was found.
`getTodayDate()` is passed in as `today`. -/
def extractLeadEvents (today telegramMsgId model msg : Str) : List LeadEvent :=
  let phoneNumber := scanPhone none msg
  let customerName := scanName none msg
  let page := scanFirstCI platformPats msg
  let follower := scanFollower msg
  let status_text := scanFirstCI statusPats msg
  if customerName.isSome || phoneNumber.isSome then
    [⟨today, ⟨customerName, phoneNumber⟩, page, follower, status_text,
      ⟨telegramMsgId, model⟩, false⟩]
  else []

/-- `MessageParser.parseMessage`: pre-filter vague chatter, try the AI path,
fall back to rule-based extraction, normalize an empty result to ignored. -/
def parseMessage (apiKey : Bool) (env : ModelEnv) (configuredModel : Str)
    (today telegramMsgId model msg : Str) : ParseResult :=
  let trimmedMessage := trimStr msg
  if trimmedMessage = [] ∨ isVagueMessage trimmedMessage then .ignored
  else
    match translate apiKey env configuredModel with
    | some aiResult => aiResult
    | none =>
      let leadEvents := extractLeadEvents today telegramMsgId model trimmedMessage
      if leadEvents.isEmpty then .ignored else .events leadEvents

/-! ## Customer-list command (`src/bot/commands/customers-command.ts`) -/

/-- `Math.ceil(x / n)` on non-negative integers. -/
def ceilDiv (a b : Nat) : Nat := (a + b - 1) / b

inductive CustStep where
  | awaiting_follower
  | awaiting_month
deriving DecidableEq, Repr

structure PendingCust where
  chatId : Nat
  expiresAt : Nat
  step : CustStep
  follower : Option Str
deriving DecidableEq, Repr

/-- The two process-local maps of `CustomersCommand`. -/
structure CustState where
  pendingCustomersRequest : List (Nat × PendingCust)
  lastRequestAt : List (Nat × Nat)
deriving DecidableEq, Repr

/-- Observable actions of the customers command (replies and the repository
read of `buildCustomersReport`). -/
inductive CustEffect where
  /-- 'Please wait Ns before requesting another customer list.' -/
  | replyWait (sec : Nat)
  /-- 'Which follower? ...' -/
  | askFollower
  /-- 'Which month? (YYYY-MM or type "current")' -/
  | askMonth
  /-- 'Invalid month format. ...' -/
  | replyInvalidMonth
  /-- `repository.getLeadEventsByFollowerAndMonth(follower, month)` -/
  | lookupEvents (follower month : Str)
  /-- the formatted customer list -/
  | replyReport
  /-- 'Failed to generate customer list.' -/
  | replyFailed
deriving DecidableEq, Repr

/-- `cooldownMs = 2 * 60 * 1000`. -/
def custCooldownMs : Nat := 2 * 60 * 1000

/-- The 5-minute pending-state timeout of the customers flow. -/
def custPendingTtlMs : Nat := 5 * 60 * 1000

/-- Whether the repository/formatting step of a query succeeded or threw. -/
inductive RepoOutcome where
  | ok
  | failure
deriving DecidableEq, Repr

/-- `parseMonthInput`: the literal `current` (case-insensitive) resolves
against the wall clock; otherwise the input must match `^\d{4}-\d{2}$`. -/
def parseMonthInput (nowYM : Nat × Nat) (input : Str) : Option Str :=
  if lowerStr input = "current".toList then
    some (natToStr nowYM.1 ++ ('-' :: pad2 nowYM.2))
  else if (match input with
    | [a, b, c, d, e, f, g] =>
      isDigitChar a && isDigitChar b && isDigitChar c && isDigitChar d &&
      e = '-' && isDigitChar f && isDigitChar g
    | _ => false) then some input
  else none

/-- `CustomersCommand.handleCommand` (`/customers`): inside the cooldown
window the request is rejected with the remaining wait; otherwise a pending
state at `awaiting_follower` is created with a 5-minute expiry. -/
def custHandleCommand (now userId chatId : Nat) (st : CustState) :
    CustState × List CustEffect :=
  let newPending := mapSet st.pendingCustomersRequest userId
    ⟨chatId, now + custPendingTtlMs, .awaiting_follower, none⟩
  let start := ({ st with pendingCustomersRequest := newPending }, [CustEffect.askFollower])
  match mapGet st.lastRequestAt userId with
  | some lastRequest =>
    if lastRequest ≠ 0 ∧ now - lastRequest < custCooldownMs then
      (st, [.replyWait (ceilDiv (custCooldownMs - (now - lastRequest)) 1000)])
    else start
  | none => start

/-- `CustomersCommand.handlePendingRequest`: expiry/chat guard, the
follower → month steps, the rate-limit arming on successful completion.
`repo` is the outcome of the repository read + formatting
(`buildCustomersReport`), which the catch block turns into a failure
reply. -/
def custHandlePendingRequest (now userId chatId : Nat) (nowYM : Nat × Nat)
    (text : Str) (repo : RepoOutcome) (st : CustState) :
    Bool × CustState × List CustEffect :=
  if userId = 0 then (false, st, [])
  else match mapGet st.pendingCustomersRequest userId with
  | none => (false, st, [])
  | some pending =>
    if pending.chatId ≠ chatId ∨ pending.expiresAt < now then
      (false,
       { st with pendingCustomersRequest := mapDel st.pendingCustomersRequest userId },
       [])
    else match pending.step with
    | .awaiting_follower =>
      let p' := { pending with follower := some (trimStr text), step := CustStep.awaiting_month }
      (true,
       { st with pendingCustomersRequest := mapSet st.pendingCustomersRequest userId p' },
       [.askMonth])
    | .awaiting_month =>
      match parseMonthInput nowYM (trimStr text) with
      | none => (true, st, [.replyInvalidMonth])
      | some month =>
        match repo with
        | .failure =>
          (true,
           { st with pendingCustomersRequest := mapDel st.pendingCustomersRequest userId },
           [.lookupEvents (pending.follower.getD []) month, .replyFailed])
        | .ok =>
          (true,
           { pendingCustomersRequest := mapDel st.pendingCustomersRequest userId,
             lastRequestAt := mapSet st.lastRequestAt userId now },
           [.lookupEvents (pending.follower.getD []) month, .replyReport])

/-! ## Report command and report-range flow
(`src/bot/telegraf-bot.ts` `setupHandlers` `/report`; the
`maybeHandlePendingRange` variant of the bot service) -/

/-- `reportCooldownMs = 5 * 60 * 1000`. -/
def reportCooldownMs : Nat := 5 * 60 * 1000

structure ReportState where
  lastReportAt : List (Nat × Nat)
deriving DecidableEq, Repr

/-- The `/report` argument as seen by `parseDaysArg`: absent, non-numeric
(`Number(arg)` is `NaN`), or a number. -/
inductive DaysArg where
  | missing
  | nan
  | num (n : Int)
deriving DecidableEq, Repr

/-- `parseDaysArg`: default 1 on missing/non-finite input, otherwise
truncated and clamped to `[1, 30]`. -/
def parseDaysArg (arg : DaysArg) : Nat :=
  match arg with
  | .missing => 1
  | .nan => 1
  | .num n => (min (max n 1) 30).toNat

inductive ReportEffect where
  /-- 'Please wait Ns before requesting another report.' -/
  | replyWait (sec : Nat)
  /-- `buildReport(days)` — repository query + formatting -/
  | buildReport (days : Nat)
  /-- the report text -/
  | replyReport
  /-- 'Failed to generate report.' -/
  | replyFailed
  /-- 'Invalid input. Send date range ... or a number of days ...' -/
  | replyInvalidRange
  /-- `buildReportRange`/`buildReport` from the pending-range flow -/
  | buildRange
deriving DecidableEq, Repr

/-- `canRequestReport`: no previous (or zero) timestamp, or the cooldown has
elapsed. -/
def canRequestReport (now userId : Nat) (st : ReportState) : Bool :=
  match mapGet st.lastReportAt userId with
  | none => true
  | some last => if last = 0 then true else decide (reportCooldownMs ≤ now - last)

/-- The `/report` handler of `telegraf-bot.ts` (lines 33–53): a request
inside the cooldown window gets the remaining wait and mutates nothing;
otherwise the cooldown timestamp is set **before** `buildReport` runs, so it
is armed even when the build subsequently fails (the catch block then sends
the failure reply). -/
def reportCommand (now userId : Nat) (arg : DaysArg) (buildOk : Bool)
    (st : ReportState) : ReportState × List ReportEffect :=
  if ¬ canRequestReport now userId st then
    let waitMs := reportCooldownMs - (now - (mapGet st.lastReportAt userId).getD 0)
    (st, [.replyWait (ceilDiv waitMs 1000)])
  else
    let days := parseDaysArg arg
    (⟨mapSet st.lastReportAt userId now⟩,
     [.buildReport days, if buildOk then .replyReport else .replyFailed])

inductive RangeType where
  | report
  | follow
deriving DecidableEq, Repr

structure PendingRange where
  chatId : Nat
  expiresAt : Nat
  rtype : RangeType
deriving DecidableEq, Repr

/-- State of the bot-service variant with the two-step report-range flow. -/
structure RangeState where
  pendingReportRange : List (Nat × PendingRange)
  lastReportAt : List (Nat × Nat)
deriving DecidableEq, Repr

/-- Result shape of `parseRangeOrDays`. -/
inductive RangeOrDays where
  | days (n : Nat)
  | range (startDate endDate : Str)
deriving DecidableEq, Repr

/-- `/report` with no arguments in the range-flow variant: create the pending
range state with a 5-minute expiry (after the same cooldown check). -/
def reportCommandNoArgs (now userId chatId : Nat) (st : RangeState) :
    RangeState × List ReportEffect :=
  if ¬ canRequestReport now userId ⟨st.lastReportAt⟩ then
    let waitMs := reportCooldownMs - (now - (mapGet st.lastReportAt userId).getD 0)
    (st, [.replyWait (ceilDiv waitMs 1000)])
  else
    let newPending := mapSet st.pendingReportRange userId ⟨chatId, now + 5 * 60 * 1000, .report⟩
    ({ st with pendingReportRange := newPending }, [])

/-- `maybeHandlePendingRange` (guard and step logic).  `parsed` is the value
`parseRangeOrDays(text)` computes from the reply text (its internal date/time
tokenizing is not re-modelled here; the expiry/chat guard under verification
runs before the text is ever inspected).  `buildOk` is the outcome of the
report build; on success the cooldown timestamp is armed after the build, on
failure it is left unchanged; the pending state is deleted in both cases
(`finally`). -/
def maybeHandlePendingRange (now userId chatId : Nat) (text : Str)
    (parsed : Option RangeOrDays) (buildOk : Bool) (st : RangeState) :
    Bool × RangeState × List ReportEffect :=
  if userId = 0 then (false, st, [])
  else match mapGet st.pendingReportRange userId with
  | none => (false, st, [])
  | some pending =>
    if pending.chatId ≠ chatId ∨ pending.expiresAt < now then
      (false,
       { st with pendingReportRange := mapDel st.pendingReportRange userId },
       [])
    else if (trimStr text).head? = some '/' then
      (false,
       { st with pendingReportRange := mapDel st.pendingReportRange userId },
       [])
    else match parsed with
    | none => (true, st, [.replyInvalidRange])
    | some _ =>
      (true,
       { pendingReportRange := mapDel st.pendingReportRange userId,
         lastReportAt :=
           if buildOk then mapSet st.lastReportAt userId now else st.lastReportAt },
       [.buildRange, if buildOk then .replyReport else .replyFailed])

/-! ## Concrete sample data for witnesses and counterexamples -/

/-- Event-document builder for concrete test data. -/
def sampleEvent (ph : Option Str) (d : Str) (ca : Nat) (st : Option Str) :
    LeadEventDocument :=
  ⟨d, ⟨some "N".toList, ph⟩, some "P".toList, some "F".toList, st, none, none,
   ⟨"1".toList, "m".toList⟩, ca⟩

/-- `{phone:"011", date:"2025-01-01", status:"A"}` from the spec scenario. -/
def scenarioE1 : LeadEventDocument :=
  sampleEvent (some "011".toList) "2025-01-01".toList 10 (some "A".toList)

/-- `{phone:"011", date:"2025-01-05", status:"B"}` from the spec scenario. -/
def scenarioE2 : LeadEventDocument :=
  sampleEvent (some "011".toList) "2025-01-05".toList 20 (some "B".toList)

/-- An event with a missing phone that matches follower `F` in 2025-01. -/
def noPhoneEvent : LeadEventDocument :=
  sampleEvent none "2025-01-02".toList 5 (some "C".toList)

/-- A concrete valid header message. -/
def sampleHeaderMsg : Str :=
  ("HDR\nDATE: 2025-01-02\nNAME: Bob\nPHONE: 012345678\nPAGE: FB\nFOLLOWER: Sok").toList

/-- The data `sampleHeaderMsg` parses to. -/
def sampleHeaderData : HeaderFormData :=
  ⟨"2025-01-02".toList, "Bob".toList, "012345678".toList, "FB".toList, "Sok".toList⟩

/-- A pending entry waiting for the optional note. -/
def pendingAtNote : PendingSalesEntry :=
  ⟨7, 42, sampleHeaderData, .awaiting_note, some "B".toList, 10000, 99⟩

/-- A parser-level event flagged as an update whose name is the given value. -/
def updEvent (nm : Option Str) : LeadEvent :=
  ⟨"2025-01-03".toList, ⟨nm, some "099887766".toList⟩, some "fb".toList, none,
   some "new status".toList, ⟨"5".toList, "m".toList⟩, true⟩

/-- A prior persisted event for the same phone. -/
def histDoc : LeadEventDocument :=
  ⟨"2025-01-01".toList, ⟨some "Alice".toList, some "099887766".toList⟩,
   some "FB".toList, some "Sok".toList, some "old status".toList,
   some "A".toList, some "old note".toList, ⟨"2".toList, "m".toList⟩, 100⟩

/-- One body line as the loop sees it: the whitelisted key and the trimmed
value (`match[1]` and `match[2].trim()`). -/
def decodeEntry (line : Str) : Option (Str × Str) :=
  (parseHeaderLine line).map (fun kr => (kr.1, trimStr kr.2))

/-- Writing a list of key/value pairs into a draft record in order. -/
def mergeKvs (s : HeaderDraft) (kvs : List (Str × Str)) : HeaderDraft :=
  kvs.foldl (fun acc kv => setField acc kv.1 kv.2) s

/-- Canonical rendering `KEY: value` of one header line. -/
def mkLine (k v : Str) : Str := k ++ (':' :: ' ' :: v)

/-- A valid header block with the five fields in scrambled order. -/
def scrambledHeaderMsg : Str :=
  ("HDR\nFOLLOWER: Sok\nDATE: 2025-01-02\nPAGE: FB\nNAME: Bob\nPHONE: 012345678").toList

/-- A model environment in which the configured model id is rejected as
invalid and the default model answers with an ignored marker. -/
def sampleEnv : ModelEnv := fun m =>
  if m = defaultModel then .okIgnored
  else .httpError 400 "the requested id is an invalid model".toList

/-- The spec scenario run through the follower/month pipeline (events given
in reverse arrival order to exercise the sort). -/
def scenarioPipeline : List CustomerCase :=
  buildCasesByFollowerAndMonthPipeline (2025, 1) "F".toList "2025-01".toList
    [scenarioE2, scenarioE1]

/-! # Theorems

Helper lemmas first, then one main theorem per claim (with witnesses for the
theorems that carry hypotheses). -/

theorem dropWhile_head?_not {α : Type} (p : α → Bool) (l : List α) :
    ∀ c, (l.dropWhile p).head? = some c → p c = false := by
  induction l with
  | nil => simp
  | cons a t ih =>
    intro c h
    by_cases hp : p a
    · rw [List.dropWhile_cons_of_pos hp] at h
      exact ih c h
    · rw [List.dropWhile_cons_of_neg hp] at h
      simp only [List.head?_cons, Option.some.injEq] at h
      subst h
      simpa using hp

theorem trimStr_getLast?_not_ws (s : Str) :
    ∀ c, (trimStr s).getLast? = some c → isWsChar c = false := by
  intro c h
  unfold trimStr at h
  rw [List.getLast?_reverse] at h
  exact dropWhile_head?_not _ _ c h

theorem trimStr_head?_not_ws (s : Str) :
    ∀ c, (trimStr s).head? = some c → isWsChar c = false := by
  intro c h
  have h2 : (s.dropWhile isWsChar).head? = some c := by
    unfold trimStr at h
    have hsuffix : ((s.dropWhile isWsChar).reverse.dropWhile isWsChar) <:+
        (s.dropWhile isWsChar).reverse := List.dropWhile_suffix _
    have hpre : ((s.dropWhile isWsChar).reverse.dropWhile isWsChar).reverse <+:
        (s.dropWhile isWsChar) := by
      have := List.reverse_prefix.mpr hsuffix
      simpa using this
    obtain ⟨t, ht⟩ := hpre
    rw [← ht]
    rcases hh : ((s.dropWhile isWsChar).reverse.dropWhile isWsChar).reverse with _ | ⟨x, xs⟩
    · rw [hh] at h; simp at h
    · rw [hh] at h
      simp only [List.head?_cons, Option.some.injEq] at h
      simp [h]
  exact dropWhile_head?_not _ _ c h2

theorem trimStr_ws_head (c : Char) (s : Str) (h : isWsChar c = true) :
    trimStr (c :: s) = trimStr s := by
  unfold trimStr
  rw [List.dropWhile_cons_of_pos h]

/-- `Map.get` after `Map.set` of the same key. -/
theorem mapGet_set_self {α : Type} (m : List (Nat × α)) (k : Nat) (v : α) :
    mapGet (mapSet m k v) k = some v := by
  simp [mapGet, mapSet, List.find?]

/-- `Map.get` after `Map.delete` of the same key. -/
theorem mapGet_del_self {α : Type} (m : List (Nat × α)) (k : Nat) :
    mapGet (mapDel m k) k = none := by
  induction m with
  | nil => rfl
  | cons p t ih =>
    unfold mapGet mapDel at ih ⊢
    by_cases hp : p.1 = k
    · rw [List.filter_cons_of_neg (by simp [hp])]
      exact ih
    · rw [List.filter_cons_of_pos (by simp [hp])]
      have h2 : List.find? (fun q => decide (q.1 = k)) (p :: List.filter (fun q => decide (q.1 ≠ k)) t) =
          List.find? (fun q => decide (q.1 = k)) (List.filter (fun q => decide (q.1 ≠ k)) t) := by
        simp [List.find?_cons, hp]
      rw [h2]
      exact ih

/-- C10 — at `awaiting_note`, an empty or whitespace-only reply normalizes to
a null note even though it is not one of the documented skip tokens; a
persisted note is never the empty string and never carries leading or
trailing whitespace. -/
theorem C10_note_normalization (text : Str) :
    (trimStr text = [] → normalizeNote text = none) ∧
    normalizeNote text ≠ some [] ∧
    (∀ t, normalizeNote text = some t →
      t = trimStr text ∧ t ≠ [] ∧
      (∀ c, t.head? = some c → isWsChar c = false) ∧
      (∀ c, t.getLast? = some c → isWsChar c = false)) := by
  by_cases he : trimStr text = []
  · simp [normalizeNote, he]
  · by_cases hskip : lowerStr (trimStr text) = "-".toList ∨
        lowerStr (trimStr text) = "skip".toList ∨
        lowerStr (trimStr text) = "none".toList ∨
        lowerStr (trimStr text) = "n/a".toList
    · refine ⟨fun h => absurd h he, ?_, ?_⟩
      · rcases hskip with h | h | h | h <;> simp [normalizeNote, he, h]
      · intro t ht
        rcases hskip with h | h | h | h <;> simp [normalizeNote, he, h] at ht
    · push_neg at hskip
      have hval : normalizeNote text = some (trimStr text) := by
        simp only [normalizeNote, he, if_false]
        rw [if_neg]
        push_neg
        exact hskip
      refine ⟨fun h => absurd h he, ?_, ?_⟩
      · rw [hval]
        simpa using he
      · intro t ht
        rw [hval] at ht
        injection ht with ht
        subst ht
        exact ⟨rfl, he, trimStr_head?_not_ws text, trimStr_getLast?_not_ws text⟩

/-- C10 witness: the whitespace-only reply. -/
theorem C10_note_normalization_witness :
    normalizeNote "   ".toList = none :=
  (C10_note_normalization "   ".toList).1 (by decide)

theorem char_eq_of_toNat_eq {a b : Char} (h : a.toNat = b.toNat) : a = b :=
  Char.eq_of_val_eq (UInt32.ext h)

theorem char_upper_AJ_cases (c : Char) (h1 : 'A' ≤ c) (h2 : c ≤ 'J') :
    c = 'A' ∨ c = 'B' ∨ c = 'C' ∨ c = 'D' ∨ c = 'E' ∨ c = 'F' ∨ c = 'G' ∨
    c = 'H' ∨ c = 'I' ∨ c = 'J' := by
  have n1 : 65 ≤ c.toNat := by simpa [Char.toNat] using h1
  have n2 : c.toNat ≤ 74 := by simpa [Char.toNat] using h2
  interval_cases h : c.toNat
  · exact Or.inl (char_eq_of_toNat_eq h)
  · exact Or.inr (Or.inl (char_eq_of_toNat_eq h))
  · exact Or.inr (Or.inr (Or.inl (char_eq_of_toNat_eq h)))
  · exact Or.inr (Or.inr (Or.inr (Or.inl (char_eq_of_toNat_eq h))))
  · exact Or.inr (Or.inr (Or.inr (Or.inr (Or.inl (char_eq_of_toNat_eq h)))))
  · exact Or.inr (Or.inr (Or.inr (Or.inr (Or.inr (Or.inl (char_eq_of_toNat_eq h))))))
  · exact Or.inr (Or.inr (Or.inr (Or.inr (Or.inr (Or.inr (Or.inl (char_eq_of_toNat_eq h)))))))
  · exact Or.inr (Or.inr (Or.inr (Or.inr (Or.inr (Or.inr (Or.inr (Or.inl (char_eq_of_toNat_eq h))))))))
  · exact Or.inr (Or.inr (Or.inr (Or.inr (Or.inr (Or.inr (Or.inr (Or.inr (Or.inl (char_eq_of_toNat_eq h)))))))))
  · exact Or.inr (Or.inr (Or.inr (Or.inr (Or.inr (Or.inr (Or.inr (Or.inr (Or.inr (char_eq_of_toNat_eq h)))))))))

theorem char_lower_aj_cases (c : Char) (h1 : 'a' ≤ c) (h2 : c ≤ 'j') :
    c = 'a' ∨ c = 'b' ∨ c = 'c' ∨ c = 'd' ∨ c = 'e' ∨ c = 'f' ∨ c = 'g' ∨
    c = 'h' ∨ c = 'i' ∨ c = 'j' := by
  have n1 : 97 ≤ c.toNat := by simpa [Char.toNat] using h1
  have n2 : c.toNat ≤ 106 := by simpa [Char.toNat] using h2
  interval_cases h : c.toNat
  · exact Or.inl (char_eq_of_toNat_eq h)
  · exact Or.inr (Or.inl (char_eq_of_toNat_eq h))
  · exact Or.inr (Or.inr (Or.inl (char_eq_of_toNat_eq h)))
  · exact Or.inr (Or.inr (Or.inr (Or.inl (char_eq_of_toNat_eq h))))
  · exact Or.inr (Or.inr (Or.inr (Or.inr (Or.inl (char_eq_of_toNat_eq h)))))
  · exact Or.inr (Or.inr (Or.inr (Or.inr (Or.inr (Or.inl (char_eq_of_toNat_eq h))))))
  · exact Or.inr (Or.inr (Or.inr (Or.inr (Or.inr (Or.inr (Or.inl (char_eq_of_toNat_eq h)))))))
  · exact Or.inr (Or.inr (Or.inr (Or.inr (Or.inr (Or.inr (Or.inr (Or.inl (char_eq_of_toNat_eq h))))))))
  · exact Or.inr (Or.inr (Or.inr (Or.inr (Or.inr (Or.inr (Or.inr (Or.inr (Or.inl (char_eq_of_toNat_eq h)))))))))
  · exact Or.inr (Or.inr (Or.inr (Or.inr (Or.inr (Or.inr (Or.inr (Or.inr (Or.inr (char_eq_of_toNat_eq h)))))))))

theorem mem_codes_of_upper (ch : Char) (h1 : 'A' ≤ ch) (h2 : ch ≤ 'J') :
    ∃ p ∈ REASON_CODES, p.1 = [ch] := by
  rcases char_upper_AJ_cases ch h1 h2 with h | h | h | h | h | h | h | h | h | h <;>
    subst h <;> decide

theorem mem_codes_of_lower (ch : Char) (h1 : 'a' ≤ ch) (h2 : ch ≤ 'j') :
    ∃ p ∈ REASON_CODES, p.1 = [ch.toUpper] ∧ lowerStr p.1 = [ch] := by
  rcases char_lower_aj_cases ch h1 h2 with h | h | h | h | h | h | h | h | h | h <;>
    subst h <;> decide

/-- Exact characterization of the single-letter branch: it succeeds precisely
on a registry code in upper or lower case. -/
theorem letterMatch_eq_some_iff (t c : Str) :
    letterMatch t = some c ↔
      ∃ p ∈ REASON_CODES, p.1 = c ∧ (t = p.1 ∨ t = lowerStr p.1) := by
  constructor
  · intro h
    rcases t with _ | ⟨ch, rest⟩
    · simp [letterMatch] at h
    · rcases rest with _ | ⟨r2, rs⟩
      · simp only [letterMatch] at h
        by_cases hu : 'A' ≤ ch ∧ ch ≤ 'J'
        · rw [if_pos hu] at h
          injection h with h
          obtain ⟨p, hp, hpc⟩ := mem_codes_of_upper ch hu.1 hu.2
          exact ⟨p, hp, hpc.trans h, Or.inl hpc.symm⟩
        · rw [if_neg hu] at h
          by_cases hl : 'a' ≤ ch ∧ ch ≤ 'j'
          · rw [if_pos hl] at h
            injection h with h
            obtain ⟨p, hp, hpc, hlow⟩ := mem_codes_of_lower ch hl.1 hl.2
            exact ⟨p, hp, hpc.trans h, Or.inr hlow.symm⟩
          · rw [if_neg hl] at h
            exact absurd h (by simp)
      · simp [letterMatch] at h
  · rintro ⟨p, hp, hpc, hd | hd⟩ <;> subst hd <;> subst hpc <;>
      fin_cases hp <;> decide

/-- Each full `"CODE - label"` string is found back as its own (unique)
registry entry. -/
theorem find?_fullLabel_self (p : Str × Str) (hp : p ∈ REASON_CODES) :
    REASON_CODES.find? (fun q => decide (fullLabel p = fullLabel q)) = some p := by
  fin_cases hp <;> decide

/-- No full `"CODE - label"` string is a single letter. -/
theorem letterMatch_fullLabel (p : Str × Str) (hp : p ∈ REASON_CODES) :
    letterMatch (fullLabel p) = none := by
  fin_cases hp <;> decide

/-- The core of `parseReasonCode` after trimming, as an exact
characterization. -/
theorem parseReasonCore_iff (t c : Str) :
    (if t = [] then none
     else match letterMatch t with
       | some c0 => some c0
       | none => (REASON_CODES.find? (fun p => t = fullLabel p)).map (·.1)) = some c
    ↔ ∃ p ∈ REASON_CODES, p.1 = c ∧
        (t = p.1 ∨ t = lowerStr p.1 ∨ t = fullLabel p) := by
  by_cases h0 : t = []
  · subst h0
    simp only [if_pos rfl]
    constructor
    · intro h; exact absurd h (by simp)
    · rintro ⟨p, hp, _, hd | hd | hd⟩ <;> exfalso <;> fin_cases hp <;>
        revert hd <;> decide
  · rw [if_neg h0]
    rcases hlm : letterMatch t with _ | c0
    · constructor
      · intro h
        rcases Option.map_eq_some'.mp h with ⟨p, hfind, hpc⟩
        have hp : p ∈ REASON_CODES := List.mem_of_find?_eq_some hfind
        have heq : t = fullLabel p := by
          have := List.find?_some hfind
          simpa using this
        exact ⟨p, hp, hpc, Or.inr (Or.inr heq)⟩
      · rintro ⟨p, hp, hpc, hd | hd | hd⟩
        · exfalso
          rw [hd, (letterMatch_eq_some_iff p.1 p.1).mpr ⟨p, hp, rfl, Or.inl rfl⟩] at hlm
          exact Option.noConfusion hlm
        · exfalso
          rw [hd, (letterMatch_eq_some_iff (lowerStr p.1) p.1).mpr
              ⟨p, hp, rfl, Or.inr rfl⟩] at hlm
          exact Option.noConfusion hlm
        · subst hd
          rw [find?_fullLabel_self p hp]
          simpa using hpc
    · constructor
      · intro h
        injection h with h
        obtain ⟨p, hp, hpc, hd⟩ := (letterMatch_eq_some_iff t c0).mp hlm
        exact ⟨p, hp, hpc.trans h,
          hd.elim (fun x => Or.inl x) (fun x => Or.inr (Or.inl x))⟩
      · rintro ⟨p, hp, hpc, hd | hd | hd⟩
        · rw [hd, (letterMatch_eq_some_iff p.1 p.1).mpr ⟨p, hp, rfl, Or.inl rfl⟩] at hlm
          injection hlm with hlm
          rw [← hlm, hpc]
        · rw [hd, (letterMatch_eq_some_iff (lowerStr p.1) p.1).mpr
              ⟨p, hp, rfl, Or.inr rfl⟩] at hlm
          injection hlm with hlm
          rw [← hlm, hpc]
        · exfalso
          rw [hd, letterMatch_fullLabel p hp] at hlm
          exact Option.noConfusion hlm

/-- C3 — for every registry code, the bare letter in either case and the
exact `"code - label"` string parse to that code, and *only* such inputs
(after trimming) parse to a code at all: the empty string, whitespace, two
codes together, an unknown letter, and free text all yield `none` rather than
an error. -/
theorem C3_parseReasonCode_exact :
    (∀ s c, parseReasonCode s = some c ↔
       ∃ p ∈ REASON_CODES, p.1 = c ∧
         (trimStr s = p.1 ∨ trimStr s = lowerStr p.1 ∨ trimStr s = fullLabel p)) ∧
    (∀ p ∈ REASON_CODES,
       parseReasonCode p.1 = some p.1 ∧
       parseReasonCode (lowerStr p.1) = some p.1 ∧
       parseReasonCode (fullLabel p) = some p.1) ∧
    parseReasonCode [] = none ∧
    parseReasonCode "   ".toList = none ∧
    parseReasonCode "A B".toList = none ∧
    parseReasonCode "AB".toList = none ∧
    parseReasonCode "K".toList = none ∧
    parseReasonCode "not sure why".toList = none := by
  refine ⟨fun s c => ?_, fun p hp => ?_, by decide, by decide, by decide,
    by decide, by decide, by decide⟩
  · exact parseReasonCore_iff (trimStr s) c
  · fin_cases hp <;> exact ⟨by decide, by decide, by decide⟩

/-- C3 witness: instantiates the characterization at concrete inputs (code
`B`, lower-case, full-label, and a no-match input). -/
theorem C3_parseReasonCode_exact_witness :
    parseReasonCode "b".toList = some "B".toList ∧
    parseReasonCode "A B".toList = none := by
  constructor
  · exact ((C3_parseReasonCode_exact.2.1 ("B".toList, "ទីតាំងមិនត្រូវ".toList)
      (by decide)).2.1)
  · exact C3_parseReasonCode_exact.2.2.2.2.1

/-- A non-null normalized note is the trimmed reply text and is non-empty. -/
theorem normalizeNote_some_eq (text : Str) :
    ∀ t, normalizeNote text = some t → t = trimStr text ∧ t ≠ [] := by
  intro t ht
  by_cases he : trimStr text = []
  · simp [normalizeNote, he] at ht
  · by_cases hskip : lowerStr (trimStr text) = "-".toList ∨
        lowerStr (trimStr text) = "skip".toList ∨
        lowerStr (trimStr text) = "none".toList ∨
        lowerStr (trimStr text) = "n/a".toList
    · rcases hskip with h | h | h | h <;> simp [normalizeNote, he, h] at ht
    · push_neg at hskip
      have hval : normalizeNote text = some (trimStr text) := by
        simp only [normalizeNote, he, if_false]
        rw [if_neg]
        push_neg
        exact hskip
      rw [hval] at ht
      injection ht with ht
      exact ⟨ht.symm, ht ▸ he⟩

/-- C5 counterexample — the claim "at `awaiting_note` ... any other reply is
stored verbatim trimmed" fails for a whitespace-only reply: `"  "` is not one
of the four skip tokens, yet the committed event carries `note = null`, not
the trimmed verbatim text (the empty string). -/
theorem C5_counterexample_ws_note :
    lowerStr (trimStr "  ".toList) ≠ "-".toList ∧
    lowerStr (trimStr "  ".toList) ≠ "skip".toList ∧
    lowerStr (trimStr "  ".toList) ≠ "none".toList ∧
    lowerStr (trimStr "  ".toList) ≠ "n/a".toList ∧
    (handlePending 2000 7 42 "  ".toList [(42, pendingAtNote)]).saved.map (·.note)
      = [none] ∧
    (none : Option Str) ≠ some (trimStr "  ".toList) := by
  refine ⟨by decide, by decide, by decide, by decide, by decide, by decide⟩

/-- C5 (amended) — the entry flow: at `awaiting_reason` an unresolvable reply
re-sends the menu with the state unchanged and persists nothing; a resolved
reason transitions to `awaiting_note`; at `awaiting_note` the four skip
tokens *and any empty or whitespace-only reply* normalize to a null note
while any other reply is stored verbatim trimmed; commit persists exactly one
event carrying the chosen reason code and note, then deletes the state.  A
valid header followed by `"B"` then `"-"` persists one event with
`reason_code = "B"` and `note = null`. -/
theorem C5_entry_flow (now chatId userId : Nat) (text : Str)
    (entries : PendingEntries) (pending : PendingSalesEntry)
    (huid : userId ≠ 0)
    (hget : mapGet entries userId = some pending)
    (hchat : pending.chatId = chatId)
    (hexp : ¬ pending.expiresAt < now) :
    (pending.step = .awaiting_reason → parseReasonCode text = none →
       handlePending now chatId userId text entries =
         ⟨true, entries, [], [.chooseOne, .reasonMenu]⟩) ∧
    (∀ rc, pending.step = .awaiting_reason → parseReasonCode text = some rc →
       handlePending now chatId userId text entries =
         ⟨true, mapSet entries userId
            { pending with reasonCode := some rc, step := SalesEntryStep.awaiting_note },
          [], [.askNote]⟩) ∧
    (∀ rc, pending.step = .awaiting_note → pending.reasonCode = some rc →
       handlePending now chatId userId text entries =
         ⟨true, mapDel entries userId,
          [saveEntryEvent pending (normalizeNote text) now], [.savedNotice]⟩ ∧
       (saveEntryEvent pending (normalizeNote text) now).reason_code = some rc ∧
       (saveEntryEvent pending (normalizeNote text) now).note = normalizeNote text) ∧
    ((trimStr text = [] ∨ lowerStr (trimStr text) = "-".toList ∨
        lowerStr (trimStr text) = "skip".toList ∨
        lowerStr (trimStr text) = "none".toList ∨
        lowerStr (trimStr text) = "n/a".toList) → normalizeNote text = none) ∧
    (∀ t, normalizeNote text = some t → t = trimStr text ∧ t ≠ []) ∧
    ((tryStartFromHeader 1000 7 42 99 sampleHeaderMsg []).saved = [] ∧
     (handlePending 2000 7 42 "B".toList
        (tryStartFromHeader 1000 7 42 99 sampleHeaderMsg []).entries).saved = [] ∧
     (handlePending 3000 7 42 "-".toList
        (handlePending 2000 7 42 "B".toList
          (tryStartFromHeader 1000 7 42 99 sampleHeaderMsg []).entries).entries).saved.map
        (fun e => (e.reason_code, e.note)) = [(some "B".toList, none)] ∧
     (handlePending 3000 7 42 "-".toList
        (handlePending 2000 7 42 "B".toList
          (tryStartFromHeader 1000 7 42 99 sampleHeaderMsg []).entries).entries).entries
       = []) := by
  have hguard : ¬(pending.chatId ≠ chatId ∨ pending.expiresAt < now) := by
    push_neg
    exact ⟨hchat, by omega⟩
  refine ⟨?_, ?_, ?_, ?_, normalizeNote_some_eq text, by decide, by decide,
    by decide, by decide⟩
  · intro hstep hparse
    simp [handlePending, huid, hget, hguard, hstep, hparse]
  · intro rc hstep hparse
    simp [handlePending, huid, hget, hguard, hstep, hparse]
  · intro rc hstep hrc
    refine ⟨?_, by simp [saveEntryEvent, hrc], by simp [saveEntryEvent]⟩
    simp [handlePending, huid, hget, hguard, hstep, hrc]
  · intro hd
    rcases hd with hd | hd
    · simp [normalizeNote, hd]
    · by_cases he : trimStr text = []
      · simp [normalizeNote, he]
      · rcases hd with hd | hd | hd | hd <;> simp [normalizeNote, he, hd]

/-- C5 witness: the amended theorem applied to a concrete pending entry and
three concrete replies (commit path, unresolvable-reason path, resolved
path). -/
theorem C5_entry_flow_witness :
    handlePending 2000 7 42 "some remark".toList [(42, pendingAtNote)] =
      ⟨true, mapDel [(42, pendingAtNote)] 42,
       [saveEntryEvent pendingAtNote (normalizeNote "some remark".toList) 2000],
       [.savedNotice]⟩ := by
  exact ((C5_entry_flow 2000 7 42 "some remark".toList [(42, pendingAtNote)]
    pendingAtNote (by decide) (by decide) (by decide) (by decide)).2.2.1
    "B".toList (by decide) (by decide)).1

/-- C7 — every pending conversational state (entry, customer-list query,
report-range query) carries an absolute expiry timestamp set at creation;
any interaction against an expired state deletes it without advancing it, and
a state retrieved for a different chat id is treated exactly like an expired
state. -/
theorem C7_pending_state_guards :
    (∀ now chatId userId msgId text entries data,
       (trimStr text).head? ≠ some '/' → userId ≠ 0 →
       headerParse text = .ok data →
       (tryStartFromHeader now chatId userId msgId text entries).entries =
         mapSet entries userId
           ⟨chatId, userId, data, .awaiting_reason, none, now + entryTtlMs, msgId⟩) ∧
    (∀ now chatId userId text entries pending, userId ≠ 0 →
       mapGet entries userId = some pending →
       (pending.chatId ≠ chatId ∨ pending.expiresAt < now) →
       handlePending now chatId userId text entries =
         ⟨true, mapDel entries userId, [], [.expiredNotice]⟩) ∧
    (∀ now userId chatId st,
       (∀ last, mapGet st.lastRequestAt userId = some last →
          ¬(last ≠ 0 ∧ now - last < custCooldownMs)) →
       custHandleCommand now userId chatId st =
         (⟨mapSet st.pendingCustomersRequest userId
             ⟨chatId, now + custPendingTtlMs, .awaiting_follower, none⟩,
           st.lastRequestAt⟩,
          [.askFollower])) ∧
    (∀ now userId chatId nowYM text repo st pending, userId ≠ 0 →
       mapGet st.pendingCustomersRequest userId = some pending →
       (pending.chatId ≠ chatId ∨ pending.expiresAt < now) →
       custHandlePendingRequest now userId chatId nowYM text repo st =
         (false,
          { st with pendingCustomersRequest := mapDel st.pendingCustomersRequest userId },
          [])) ∧
    (∀ now userId chatId st, canRequestReport now userId ⟨st.lastReportAt⟩ = true →
       reportCommandNoArgs now userId chatId st =
         (⟨mapSet st.pendingReportRange userId ⟨chatId, now + 5 * 60 * 1000, .report⟩,
           st.lastReportAt⟩,
          [])) ∧
    (∀ now userId chatId text parsed buildOk st pending, userId ≠ 0 →
       mapGet st.pendingReportRange userId = some pending →
       (pending.chatId ≠ chatId ∨ pending.expiresAt < now) →
       maybeHandlePendingRange now userId chatId text parsed buildOk st =
         (false,
          { st with pendingReportRange := mapDel st.pendingReportRange userId },
          [])) := by
  refine ⟨?_, ?_, ?_, ?_, ?_, ?_⟩
  · intro now chatId userId msgId text entries data hslash huid hok
    simp [tryStartFromHeader, hslash, huid, hok]
  · intro now chatId userId text entries pending huid hget hguard
    simp only [handlePending, hget]
    rw [if_neg huid, if_pos hguard]
  · intro now userId chatId st hfree
    rcases hlast : mapGet st.lastRequestAt userId with _ | last
    · simp only [custHandleCommand, hlast]
    · have hfree' := hfree last hlast
      simp only [custHandleCommand, hlast]
      rw [if_neg hfree']
  · intro now userId chatId nowYM text repo st pending huid hget hguard
    simp only [custHandlePendingRequest, hget]
    rw [if_neg huid, if_pos hguard]
  · intro now userId chatId st hcan
    unfold reportCommandNoArgs
    rw [if_neg (by simp [hcan])]
  · intro now userId chatId text parsed buildOk st pending huid hget hguard
    simp only [maybeHandlePendingRange, hget]
    rw [if_neg huid, if_pos hguard]

/-- C7 witness: a concrete expired entry-flow state and a concrete cross-chat
interaction both get deleted without advancing, and a concrete creation
carries the absolute five-minute expiry. -/
theorem C7_pending_state_guards_witness :
    handlePending 99999999 7 42 "B".toList [(42, pendingAtNote)] =
      ⟨true, mapDel [(42, pendingAtNote)] 42, [], [.expiredNotice]⟩ ∧
    handlePending 2000 8 42 "B".toList [(42, pendingAtNote)] =
      ⟨true, mapDel [(42, pendingAtNote)] 42, [], [.expiredNotice]⟩ ∧
    (tryStartFromHeader 1000 7 42 99 sampleHeaderMsg []).entries =
      mapSet [] 42 ⟨7, 42, sampleHeaderData, .awaiting_reason, none,
        1000 + entryTtlMs, 99⟩ := by
  refine ⟨?_, ?_, ?_⟩
  · exact C7_pending_state_guards.2.1 99999999 7 42 "B".toList
      [(42, pendingAtNote)] pendingAtNote (by decide) (by decide)
      (Or.inr (by decide))
  · exact C7_pending_state_guards.2.1 2000 8 42 "B".toList
      [(42, pendingAtNote)] pendingAtNote (by decide) (by decide)
      (Or.inl (by decide))
  · exact C7_pending_state_guards.1 1000 7 42 99 sampleHeaderMsg []
      sampleHeaderData (by decide) (by decide) (by decide)

/-- C6 counterexample — the claim "the cooldown timer is armed on each
successful completion of the query" fails for the `/report` handler of
`telegraf-bot.ts`: with no prior timestamp, a request whose report build
*fails* (the only effects are the failed build and the failure reply — no
successful completion) still sets the user's cooldown timestamp to `now`. -/
theorem C6_counterexample_report_arms_on_failure :
    (reportCommand 1000 5 .missing false ⟨[]⟩).1.lastReportAt = [(5, 1000)] ∧
    (reportCommand 1000 5 .missing false ⟨[]⟩).2 =
      [.buildReport 1, .replyFailed] := by
  exact ⟨by decide, by decide⟩

/-- C6 (amended) — rate limiting: for both commands a request inside the
cooldown window is rejected with the remaining wait time and causes no state
mutation (no pending state created, no lookup or build performed, no
timestamp change).  For the customer-list command the timer is armed exactly
on successful completion — never on malformed month input (which re-prompts
without a lookup) and not when the lookup/formatting fails.  For the
`/report` command of `telegraf-bot.ts` the timer is armed as soon as the
request passes the cooldown check, before the query runs and regardless of
whether the build succeeds, and its day-count argument is coerced to a
default instead of being rejected, so no malformed-input path exists. -/
theorem C6_rate_limiting (now userId chatId : Nat) (st : CustState)
    (rst : ReportState) :
    (∀ last, mapGet st.lastRequestAt userId = some last → last ≠ 0 →
       now - last < custCooldownMs →
       custHandleCommand now userId chatId st =
         (st, [.replyWait (ceilDiv (custCooldownMs - (now - last)) 1000)])) ∧
    (∀ arg buildOk, canRequestReport now userId rst = false →
       reportCommand now userId arg buildOk rst =
         (rst, [.replyWait (ceilDiv
            (reportCooldownMs - (now - (mapGet rst.lastReportAt userId).getD 0)) 1000)])) ∧
    (∀ nowYM text repo pending, userId ≠ 0 →
       mapGet st.pendingCustomersRequest userId = some pending →
       pending.chatId = chatId → ¬ pending.expiresAt < now →
       pending.step = .awaiting_month →
       parseMonthInput nowYM (trimStr text) = none →
       custHandlePendingRequest now userId chatId nowYM text repo st =
         (true, st, [.replyInvalidMonth])) ∧
    (∀ nowYM text month pending, userId ≠ 0 →
       mapGet st.pendingCustomersRequest userId = some pending →
       pending.chatId = chatId → ¬ pending.expiresAt < now →
       pending.step = .awaiting_month →
       parseMonthInput nowYM (trimStr text) = some month →
       custHandlePendingRequest now userId chatId nowYM text RepoOutcome.ok st =
         (true,
          ⟨mapDel st.pendingCustomersRequest userId, mapSet st.lastRequestAt userId now⟩,
          [.lookupEvents (pending.follower.getD []) month, .replyReport]) ∧
       custHandlePendingRequest now userId chatId nowYM text RepoOutcome.failure st =
         (true,
          ⟨mapDel st.pendingCustomersRequest userId, st.lastRequestAt⟩,
          [.lookupEvents (pending.follower.getD []) month, .replyFailed])) ∧
    (∀ arg buildOk, canRequestReport now userId rst = true →
       reportCommand now userId arg buildOk rst =
         (⟨mapSet rst.lastReportAt userId now⟩,
          [.buildReport (parseDaysArg arg),
           if buildOk then .replyReport else .replyFailed])) := by
  refine ⟨?_, ?_, ?_, ?_, ?_⟩
  · intro last hlast hne hin
    simp only [custHandleCommand, hlast]
    rw [if_pos ⟨hne, hin⟩]
  · intro arg buildOk hcan
    unfold reportCommand
    rw [if_pos (by simp [hcan])]
  · intro nowYM text repo pending huid hget hchat hexp hstep hmonth
    have hguard : ¬(pending.chatId ≠ chatId ∨ pending.expiresAt < now) := by
      push_neg
      exact ⟨hchat, by omega⟩
    simp only [custHandlePendingRequest, hget]
    rw [if_neg huid, if_neg hguard]
    simp [hstep, hmonth]
  · intro nowYM text month pending huid hget hchat hexp hstep hmonth
    have hguard : ¬(pending.chatId ≠ chatId ∨ pending.expiresAt < now) := by
      push_neg
      exact ⟨hchat, by omega⟩
    constructor <;>
      (simp only [custHandlePendingRequest, hget]
       rw [if_neg huid, if_neg hguard]
       simp [hstep, hmonth])
  · intro arg buildOk hcan
    unfold reportCommand
    rw [if_neg (by simp [hcan])]

/-- C6 witness: the amended theorem at concrete inputs — an in-cooldown
customers request is rejected without mutation, and an accepted report
request with a failing build still arms the timer. -/
theorem C6_rate_limiting_witness :
    custHandleCommand 1000 5 7 ⟨[], [(5, 900)]⟩ =
      (⟨[], [(5, 900)]⟩, [.replyWait (ceilDiv (custCooldownMs - 100) 1000)]) ∧
    reportCommand 1000 5 .nan false ⟨[]⟩ =
      (⟨mapSet [] 5 1000⟩, [.buildReport 1, .replyFailed]) := by
  constructor
  · exact (C6_rate_limiting 1000 5 7 ⟨[], [(5, 900)]⟩ ⟨[]⟩).1 900
      (by decide) (by decide) (by decide)
  · exact (C6_rate_limiting 1000 5 7 ⟨[], [(5, 900)]⟩ ⟨[]⟩).2.2.2.2 .nan false
      (by decide)

/-- C8 counterexample — the claim "the merged event takes the new event's
name ... unless the new value is null" fails when the new value is the empty
string: `""` is not null, yet the JS `||` merge substitutes the historical
name. -/
theorem C8_counterexample_empty_name :
    (updEvent (some [])).customer.name = some [] ∧
    (some ([] : Str) : Option Str) ≠ none ∧
    (enrichOne [histDoc] (updEvent (some []))).customer.name =
      some "Alice".toList ∧
    some "Alice".toList ≠ (some ([] : Str) : Option Str) := by
  exact ⟨by decide, by decide, by decide, by decide⟩

/-- C8 (amended) — update enrichment: if no prior event exists for the phone,
the update flag is dropped and the event is otherwise unchanged (and it is
persisted with exactly its own fields — the flag is stripped before saving);
if a prior event exists, the merged event takes the new event's name, page
and follower unless the new value is null *or empty*, in which case the
historical value is substituted, while the status text always takes the new
event's value, and the persisted document's `reason_code` and `note` are
those of the new event (absent, hence null) regardless of the historical
values. -/
theorem C8_update_enrichment (store : List LeadEventDocument) (ev : LeadEvent)
    (ph : Str) (hflag : ev.is_update = true)
    (hph : ev.customer.phone = some ph) (hphne : ph ≠ []) :
    (findLatestEventByPhone store ph = none →
       enrichOne store ev = { ev with is_update := false }) ∧
    (∀ ex, findLatestEventByPhone store ph = some ex →
       enrichOne store ev =
         { ev with
           customer := ⟨orFalsy ev.customer.name ex.customer.name, ev.customer.phone⟩
           page := orFalsy ev.page ex.page
           follower := orFalsy ev.follower ex.follower
           status_text := ev.status_text }) ∧
    (∀ a b : Option Str, (a = none ∨ a = some [] → orFalsy a b = b) ∧
       (∀ s, a = some s → s ≠ [] → orFalsy a b = a)) ∧
    (∀ e now, (leadEventToDoc e now).status_text = e.status_text ∧
       (leadEventToDoc e now).reason_code = none ∧
       (leadEventToDoc e now).note = none) ∧
    (∀ e now b, leadEventToDoc { e with is_update := b } now = leadEventToDoc e now) := by
  have hfalsy : strFalsy (some ph) = false := by
    simpa [strFalsy] using hphne
  refine ⟨?_, ?_, ?_, ?_, ?_⟩
  · intro hmiss
    simp [enrichOne, hflag, hfalsy, hph, hmiss]
  · intro ex hfound
    simp [enrichOne, hflag, hfalsy, hph, hfound]
  · intro a b
    constructor
    · rintro (rfl | rfl) <;> simp [orFalsy, strFalsy]
    · rintro s rfl hs
      simp [orFalsy, strFalsy, hs]
  · intro e now
    exact ⟨rfl, rfl, rfl⟩
  · intro e now b
    rfl

/-- C8 witness: the amended theorem at a concrete update event with an empty
page (historical page substituted) against a concrete store, plus the
missing-phone demotion. -/
theorem C8_update_enrichment_witness :
    enrichOne [histDoc] (updEvent (some "Bea".toList)) =
      { updEvent (some "Bea".toList) with
        customer := ⟨orFalsy (some "Bea".toList) (some "Alice".toList),
                     some "099887766".toList⟩
        page := orFalsy (some "fb".toList) (some "FB".toList)
        follower := orFalsy none (some "Sok".toList)
        status_text := some "new status".toList } ∧
    enrichOne [] (updEvent (some "Bea".toList)) =
      { updEvent (some "Bea".toList) with is_update := false } := by
  constructor
  · exact ((C8_update_enrichment [histDoc] (updEvent (some "Bea".toList))
      "099887766".toList (by decide) (by decide) (by decide)).2.1 histDoc
      (by decide))
  · exact ((C8_update_enrichment [] (updEvent (some "Bea".toList))
      "099887766".toList (by decide) (by decide) (by decide)).1 (by decide))

/-- `interpretResponse` never produces an empty event list: an empty
normalized array is turned into the ignored marker. -/
theorem interpretResponse_events_ne_nil (r : ApiResponse) (evs : List LeadEvent)
    (h : interpretResponse r = some (.events evs)) : evs ≠ [] := by
  cases r with
  | okEvents evs' =>
    simp only [interpretResponse] at h
    injection h with h
    by_cases hemp : evs'.isEmpty
    · rw [if_pos hemp] at h
      exact absurd h (by simp)
    · rw [if_neg hemp] at h
      injection h with h
      rw [← h]
      simpa [List.isEmpty_iff] using hemp
  | okIgnored => simp [interpretResponse] at h
  | okUnparseable => simp [interpretResponse] at h
  | emptyContent => simp [interpretResponse] at h
  | httpError st bd => simp [interpretResponse] at h
  | timeout => simp [interpretResponse] at h
  | netError => simp [interpretResponse] at h

/-- `callModel` never produces an empty event list either. -/
theorem callModel_events_ne_nil (env : ModelEnv) (m : Str) (b : Bool)
    (evs : List LeadEvent) (h : callModel env m b = some (.events evs)) :
    evs ≠ [] := by
  rw [callModel] at h
  split_ifs at h with hc
  · rw [callModel] at h
    rw [if_neg (by simp)] at h
    exact interpretResponse_events_ne_nil _ _ h
  · exact interpretResponse_events_ne_nil _ _ h

/-- `translate` never produces an empty event list. -/
theorem translate_events_ne_nil (apiKey : Bool) (env : ModelEnv) (cm : Str)
    (evs : List LeadEvent) (h : translate apiKey env cm = some (.events evs)) :
    evs ≠ [] := by
  unfold translate at h
  by_cases hk : apiKey
  · rw [if_pos hk] at h
    exact callModel_events_ne_nil _ _ _ _ h
  · rw [if_neg hk] at h
    exact absurd h (by simp)

/-- C9 — the AI-path retry is bounded: on a "model not recognized" error the
normalizer retries exactly once against the fixed default model id (and never
from the default id, nor once the fallback flag is spent), at most two
attempts ever happen, any further failure falls through to the deterministic
fallback, and no failure of the AI path is surfaced to the caller as an
error — the worst case is an ignored marker. -/
theorem C9_retry_bounded :
    (∀ env aiModel b, (attemptedModels env aiModel b).length ≤ 2) ∧
    (∀ env aiModel, isInvalidModelResp (env aiModel) = true → aiModel ≠ defaultModel →
       callModel env aiModel true = interpretResponse (env defaultModel) ∧
       attemptedModels env aiModel true = [aiModel, defaultModel]) ∧
    (∀ env aiModel, callModel env aiModel false = interpretResponse (env aiModel) ∧
       attemptedModels env aiModel false = [aiModel]) ∧
    (∀ env, callModel env defaultModel true = interpretResponse (env defaultModel) ∧
       attemptedModels env defaultModel true = [defaultModel]) ∧
    (∀ apiKey env cm today mid mdl msg, translate apiKey env cm = none →
       trimStr msg ≠ [] → isVagueMessage (trimStr msg) = false →
       parseMessage apiKey env cm today mid mdl msg =
         (if (extractLeadEvents today mid mdl (trimStr msg)).isEmpty then .ignored
          else .events (extractLeadEvents today mid mdl (trimStr msg)))) ∧
    (∀ apiKey env cm today mid mdl msg,
       parseMessage apiKey env cm today mid mdl msg = .ignored ∨
       ∃ evs, evs ≠ [] ∧
         parseMessage apiKey env cm today mid mdl msg = .events evs) := by
  refine ⟨?_, ?_, ?_, ?_, ?_, ?_⟩
  · intro env aiModel b
    unfold attemptedModels
    split <;> simp
  · intro env aiModel hinv hne
    have hc : (isInvalidModelResp (env aiModel) && true && decide (aiModel ≠ defaultModel)) = true := by
      simp [hinv, hne]
    refine ⟨?_, ?_⟩
    · rw [callModel, if_pos hc, callModel, if_neg (by simp)]
    · rw [attemptedModels, if_pos hc]
  · intro env aiModel
    exact ⟨by rw [callModel, if_neg (by simp)],
           by rw [attemptedModels, if_neg (by simp)]⟩
  · intro env
    exact ⟨by rw [callModel, if_neg (by simp)],
           by rw [attemptedModels, if_neg (by simp)]⟩
  · intro apiKey env cm today mid mdl msg hai hne hvague
    simp [parseMessage, hai, hne, hvague]
  · intro apiKey env cm today mid mdl msg
    simp only [parseMessage]
    by_cases h0 : trimStr msg = [] ∨ isVagueMessage (trimStr msg) = true
    · left
      rcases h0 with h0 | h0 <;> simp [h0]
    · push_neg at h0
      have hv : isVagueMessage (trimStr msg) = false :=
        Bool.eq_false_iff.mpr h0.2
      rw [if_neg (by simp [h0.1, hv])]
      rcases hai : translate apiKey env cm with _ | r
      · simp only [hai]
        by_cases hemp : (extractLeadEvents today mid mdl (trimStr msg)).isEmpty
        · left
          simp [hemp]
        · right
          exact ⟨extractLeadEvents today mid mdl (trimStr msg),
            by simpa [List.isEmpty_iff] using hemp, by simp [hemp]⟩
      · simp only [hai]
        rcases r with _ | evs
        · exact Or.inl rfl
        · exact Or.inr ⟨evs, translate_events_ne_nil _ _ _ _ hai, rfl⟩

/-- C9 witness: a concrete environment rejecting the configured model id as
invalid — the call retries once against the default id and the message is
reported as ignored, never as an error. -/
theorem C9_retry_bounded_witness :
    callModel sampleEnv "gpt-x".toList true = interpretResponse (sampleEnv defaultModel) ∧
    attemptedModels sampleEnv "gpt-x".toList true = ["gpt-x".toList, defaultModel] ∧
    callModel sampleEnv "gpt-x".toList true = some .ignored := by
  have h := C9_retry_bounded.2.1 sampleEnv "gpt-x".toList (by decide) (by decide)
  exact ⟨h.1, h.2, h.1.trans (by decide)⟩

theorem dropWhile_eq_self_of_head {α : Type} (p : α → Bool) (l : List α)
    (h : ∀ c, l.head? = some c → p c = false) : l.dropWhile p = l := by
  cases l with
  | nil => rfl
  | cons a t =>
    rw [List.dropWhile_cons_of_neg]
    simpa using h a rfl

theorem trimStr_idem (s : Str) : trimStr (trimStr s) = trimStr s := by
  have h1 : (trimStr s).dropWhile isWsChar = trimStr s :=
    dropWhile_eq_self_of_head _ _ (trimStr_head?_not_ws s)
  have h2 : (trimStr s).reverse.dropWhile isWsChar = (trimStr s).reverse :=
    dropWhile_eq_self_of_head _ _ (fun c hc =>
      trimStr_getLast?_not_ws s c (by rwa [List.head?_reverse] at hc))
  have h3 : trimStr (trimStr s) =
      (((trimStr s).dropWhile isWsChar).reverse.dropWhile isWsChar).reverse := rfl
  rw [h3, h1, h2, List.reverse_reverse]

theorem getField_set_same (s : HeaderDraft) (k v : Str) (hk : k ∈ allowedKeysL) :
    getField (setField s k v) k = some v := by
  fin_cases hk <;> simp +decide [getField, setField]

theorem getField_set_other (s : HeaderDraft) (k k' v : Str)
    (hk : k ∈ allowedKeysL) (hne : k' ≠ k) :
    getField (setField s k v) k' = getField s k' := by
  fin_cases hk <;> simp +decide [getField, setField, hne]

/-- Values produced by `decodeEntry` are trimmed and stay fixed under
`trimStr`. -/
theorem decodeEntry_val_trimmed (line : Str) (kv : Str × Str)
    (h : decodeEntry line = some kv) : trimStr kv.2 = kv.2 := by
  unfold decodeEntry at h
  rcases hpl : parseHeaderLine line with _ | kr
  · rw [hpl] at h; exact absurd h (by simp)
  · rw [hpl] at h
    injection h with h
    rw [← h]
    exact trimStr_idem kr.2

theorem getField_mergeKvs (kvs : List (Str × Str)) (s : HeaderDraft) (k : Str)
    (hall : ∀ kv ∈ kvs, kv.1 ∈ allowedKeysL)
    (hnd : (kvs.map Prod.fst).Nodup) :
    getField (mergeKvs s kvs) k =
      (match kvs.find? (fun kv => decide (kv.1 = k)) with
       | some kv => some kv.2
       | none => getField s k) := by
  induction kvs generalizing s with
  | nil => rfl
  | cons kv0 t ih =>
    have hall' : ∀ kv ∈ t, kv.1 ∈ allowedKeysL := fun kv hm => hall kv (.tail _ hm)
    have hnd' : (t.map Prod.fst).Nodup := (List.nodup_cons.mp hnd).2
    have hmerge : mergeKvs s (kv0 :: t) = mergeKvs (setField s kv0.1 kv0.2) t := rfl
    rw [hmerge, ih _ hall' hnd']
    by_cases hk : kv0.1 = k
    · have hfind : t.find? (fun kv => decide (kv.1 = k)) = none := by
        rw [List.find?_eq_none]
        intro kv hkv
        have : kv.1 ∈ t.map Prod.fst := List.mem_map_of_mem _ hkv
        have hni : kv0.1 ∉ t.map Prod.fst := (List.nodup_cons.mp hnd).1
        simp only [decide_eq_true_eq]
        intro heq
        exact hni (hk ▸ heq ▸ this)
      rw [hfind, List.find?_cons_of_pos _ (by simpa using hk)]
      simpa using hk ▸ getField_set_same s kv0.1 kv0.2 (hall kv0 (.head _))
    · rw [List.find?_cons_of_neg _ (by simpa using hk)]
      rcases hf : t.find? (fun kv => decide (kv.1 = k)) with _ | kv
      · rw [hf]
        exact getField_set_other s kv0.1 k kv0.2 (hall kv0 (.head _)) (fun h => hk h.symm)
      · rw [hf]

theorem find?_eq_of_mem_nodup (kvs : List (Str × Str)) (k v : Str)
    (hnd : (kvs.map Prod.fst).Nodup) (hm : (k, v) ∈ kvs) :
    kvs.find? (fun kv => decide (kv.1 = k)) = some (k, v) := by
  induction kvs with
  | nil => cases hm
  | cons kv0 t ih =>
    rcases List.mem_cons.mp hm with rfl | hm'
    · exact List.find?_cons_of_pos _ (by simp)
    · have hkm : k ∈ t.map Prod.fst := by
        simpa using List.mem_map_of_mem Prod.fst hm'
      have hne : ¬(kv0.1 = k) := by
        intro heq
        exact (List.nodup_cons.mp hnd).1 (heq ▸ hkm)
      rw [List.find?_cons_of_neg _ (by simpa using hne)]
      exact ih (List.nodup_cons.mp hnd).2 hm'

theorem validateHeaderData_ok_iff (s : HeaderDraft) :
    (∃ d, validateHeaderData s = .ok d) ↔
      (fieldPresent s.date = true ∧ fieldPresent s.name = true ∧
       fieldPresent s.phone = true ∧ fieldPresent s.page = true ∧
       fieldPresent s.follower = true ∧ isIsoDate (s.date.getD []) = true) := by
  unfold validateHeaderData
  split_ifs with h1 h2 h3 h4 h5 h6 <;> simp_all

/-- With trimmed, non-blank values under whitelisted distinct keys, the final
validation succeeds exactly when all five keys are present and the date value
is ISO-shaped. -/
theorem validateHeaderData_merge_ok_iff (kvs : List (Str × Str))
    (hall : ∀ kv ∈ kvs, kv.1 ∈ allowedKeysL ∧ kv.2 ≠ [])
    (htrim : ∀ kv ∈ kvs, trimStr kv.2 = kv.2)
    (hnd : (kvs.map Prod.fst).Nodup) :
    (∃ d, validateHeaderData (mergeKvs emptyDraft kvs) = .ok d) ↔
      ((∀ k ∈ allowedKeysL, ∃ v, (k, v) ∈ kvs) ∧
       (∀ v, (DATE_KEY, v) ∈ kvs → isIsoDate v = true)) := by
  have hall1 : ∀ kv ∈ kvs, kv.1 ∈ allowedKeysL := fun kv hm => (hall kv hm).1
  have hget : ∀ k, getField (mergeKvs emptyDraft kvs) k =
      (match kvs.find? (fun kv => decide (kv.1 = k)) with
       | some kv => some kv.2
       | none => getField emptyDraft k) :=
    fun k => getField_mergeKvs kvs emptyDraft k hall1 hnd
  have hfieldOf : ∀ k ∈ allowedKeysL,
      ((∃ v, (k, v) ∈ kvs) ↔ ∃ v, getField (mergeKvs emptyDraft kvs) k = some v ∧
        (k, v) ∈ kvs) := by
    intro k _
    constructor
    · rintro ⟨v, hv⟩
      refine ⟨v, ?_, hv⟩
      rw [hget k, find?_eq_of_mem_nodup kvs k v hnd hv]
    · rintro ⟨v, _, hv⟩
      exact ⟨v, hv⟩
  have hpresent : ∀ k ∈ allowedKeysL,
      (fieldPresent (getField (mergeKvs emptyDraft kvs) k) = true ↔
        ∃ v, (k, v) ∈ kvs) := by
    intro k hk
    constructor
    · intro hp
      rw [hget k] at hp
      rcases hf : kvs.find? (fun kv => decide (kv.1 = k)) with _ | kv
      · rw [hf] at hp
        have : getField emptyDraft k = none := by
          fin_cases hk <;> rfl
        rw [this] at hp
        exact absurd hp (by simp [fieldPresent])
      · have hkv : kv ∈ kvs := List.mem_of_find?_eq_some hf
        have hk1 : kv.1 = k := by simpa using List.find?_some hf
        refine ⟨kv.2, ?_⟩
        rw [← hk1]
        exact hkv
    · rintro ⟨v, hv⟩
      rw [hget k, find?_eq_of_mem_nodup kvs k v hnd hv]
      have hvne : v ≠ [] := ((hall (k, v) hv).2)
      have hvt : trimStr v = v := htrim (k, v) hv
      simp [fieldPresent, hvt, hvne]
  have hdate : (mergeKvs emptyDraft kvs).date =
      getField (mergeKvs emptyDraft kvs) DATE_KEY := by simp +decide [getField]
  have hname : (mergeKvs emptyDraft kvs).name =
      getField (mergeKvs emptyDraft kvs) NAME_KEY := by simp +decide [getField]
  have hphone : (mergeKvs emptyDraft kvs).phone =
      getField (mergeKvs emptyDraft kvs) PHONE_KEY := by simp +decide [getField]
  have hpage : (mergeKvs emptyDraft kvs).page =
      getField (mergeKvs emptyDraft kvs) PAGE_KEY := by simp +decide [getField]
  have hfol : (mergeKvs emptyDraft kvs).follower =
      getField (mergeKvs emptyDraft kvs) FOLLOWER_KEY := by simp +decide [getField]
  rw [validateHeaderData_ok_iff, hdate, hname, hphone, hpage, hfol]
  constructor
  · rintro ⟨p1, p2, p3, p4, p5, piso⟩
    refine ⟨?_, ?_⟩
    · intro k hk
      fin_cases hk
      · exact (hpresent DATE_KEY (by decide)).mp p1
      · exact (hpresent NAME_KEY (by decide)).mp p2
      · exact (hpresent PHONE_KEY (by decide)).mp p3
      · exact (hpresent PAGE_KEY (by decide)).mp p4
      · exact (hpresent FOLLOWER_KEY (by decide)).mp p5
    · intro v hv
      have hsome : getField (mergeKvs emptyDraft kvs) DATE_KEY = some v := by
        rw [hget DATE_KEY, find?_eq_of_mem_nodup kvs DATE_KEY v hnd hv]
      rw [hsome] at piso
      exact piso
  · rintro ⟨hallk, hiso⟩
    obtain ⟨v1, hv1⟩ := hallk DATE_KEY (by decide)
    have hsome : getField (mergeKvs emptyDraft kvs) DATE_KEY = some v1 := by
      rw [hget DATE_KEY, find?_eq_of_mem_nodup kvs DATE_KEY v1 hnd hv1]
    refine ⟨(hpresent DATE_KEY (by decide)).mpr ⟨v1, hv1⟩,
      (hpresent NAME_KEY (by decide)).mpr (hallk NAME_KEY (by decide)),
      (hpresent PHONE_KEY (by decide)).mpr (hallk PHONE_KEY (by decide)),
      (hpresent PAGE_KEY (by decide)).mpr (hallk PAGE_KEY (by decide)),
      (hpresent FOLLOWER_KEY (by decide)).mpr (hallk FOLLOWER_KEY (by decide)), ?_⟩
    rw [hsome]
    exact hiso v1 hv1

/-- The body loop succeeds from a draft `s` exactly when every line decodes
to a whitelisted, non-blank, fresh entry (no repeats among themselves or with
`s`) and the accumulated record passes final validation. -/
theorem processHeaderLines_ok_iff (rest : List Str) (s : HeaderDraft) :
    (∃ d, processHeaderLines rest s = .ok d) ↔
    (∃ kvs : List (Str × Str), rest.map decodeEntry = kvs.map some ∧
       (∀ kv ∈ kvs, kv.1 ∈ allowedKeysL ∧ kv.2 ≠ []) ∧
       (kvs.map Prod.fst).Nodup ∧
       (∀ kv ∈ kvs, getField s kv.1 = none) ∧
       (∃ d, validateHeaderData (mergeKvs s kvs) = .ok d)) := by
  induction rest generalizing s with
  | nil =>
    constructor
    · rintro ⟨d, hd⟩
      exact ⟨[], by simp, by simp, by simp, by simp, ⟨d, hd⟩⟩
    · rintro ⟨kvs, hmap, _, _, _, ⟨d, hd⟩⟩
      have : kvs = [] := by
        rcases kvs with _ | ⟨a, t⟩
        · rfl
        · simp at hmap
      subst this
      exact ⟨d, hd⟩
  | cons line rest' ih =>
    rcases hde : decodeEntry line with _ | kv
    · have hpl : parseHeaderLine line = none := by
        unfold decodeEntry at hde
        exact Option.map_eq_none'.mp hde
      have hproc : processHeaderLines (line :: rest') s = .err .invalidLine := by
        simp [processHeaderLines, hpl]
      constructor
      · rintro ⟨d, hd⟩
        rw [hproc] at hd
        exact absurd hd (by simp)
      · rintro ⟨kvs, hmap, -⟩
        rcases kvs with _ | ⟨kv0, kvs'⟩
        · simp at hmap
        · simp only [List.map_cons, List.cons.injEq] at hmap
          rw [hde] at hmap
          exact absurd hmap.1 (by simp)
    · obtain ⟨kr, hpl, hkr⟩ := Option.map_eq_some'.mp hde
      have hk1 : kr.1 = kv.1 := by rw [← hkr]
      have hv2 : trimStr kr.2 = kv.2 := by rw [← hkr]
      have hproc : processHeaderLines (line :: rest') s =
          (if kv.1 ∈ allowedKeysL then
            if kv.2 = [] then .err (.missingValue kv.1)
            else if (getField s kv.1).isSome then .err (.duplicateField kv.1)
            else processHeaderLines rest' (setField s kv.1 kv.2)
          else .err (.unknownField kv.1)) := by
        rw [processHeaderLines, hpl]
        rw [← hk1, ← hv2]
      by_cases hka : kv.1 ∈ allowedKeysL
      swap
      · constructor
        · rintro ⟨d, hd⟩
          rw [hproc, if_neg hka] at hd
          exact absurd hd (by simp)
        · rintro ⟨kvs, hmap, hcond, -⟩
          rcases kvs with _ | ⟨kv0, kvs'⟩
          · simp at hmap
          · simp only [List.map_cons, List.cons.injEq] at hmap
            rw [hde] at hmap
            have heq : kv = kv0 := by
              have := hmap.1
              injection this
            have hin : kv.1 ∈ allowedKeysL := by
              rw [heq]
              exact (hcond kv0 (.head _)).1
            exact absurd hin hka
      · by_cases hkv2 : kv.2 = []
        · constructor
          · rintro ⟨d, hd⟩
            rw [hproc, if_pos hka, if_pos hkv2] at hd
            exact absurd hd (by simp)
          · rintro ⟨kvs, hmap, hcond, -⟩
            rcases kvs with _ | ⟨kv0, kvs'⟩
            · simp at hmap
            · simp only [List.map_cons, List.cons.injEq] at hmap
              rw [hde] at hmap
              have heq : kv = kv0 := by
                have := hmap.1
                injection this
              have h2 : kv0.2 = [] := by
                rw [← heq]
                exact hkv2
              exact absurd h2 (hcond kv0 (.head _)).2
        · by_cases hdup : (getField s kv.1).isSome
          · constructor
            · rintro ⟨d, hd⟩
              rw [hproc, if_pos hka, if_neg hkv2, if_pos hdup] at hd
              exact absurd hd (by simp)
            · rintro ⟨kvs, hmap, -, -, hfresh, -⟩
              rcases kvs with _ | ⟨kv0, kvs'⟩
              · simp at hmap
              · simp only [List.map_cons, List.cons.injEq] at hmap
                rw [hde] at hmap
                have heq : kv = kv0 := by
                  have := hmap.1
                  injection this
                have hf0 : getField s kv.1 = none := by
                  rw [heq]
                  exact hfresh kv0 (.head _)
                rw [hf0] at hdup
                exact absurd hdup (by simp)
          · rw [hproc, if_pos hka, if_neg hkv2, if_neg hdup, ih]
            constructor
            · rintro ⟨kvs', hmap', hcond', hnd', hfresh', hval'⟩
              refine ⟨kv :: kvs', ?_, ?_, ?_, ?_, hval'⟩
              · simp [hde, hmap']
              · intro kv' hm'
                rcases List.mem_cons.mp hm' with rfl | hm
                · exact ⟨hka, hkv2⟩
                · exact hcond' kv' hm
              · rw [List.map_cons, List.nodup_cons]
                refine ⟨?_, hnd'⟩
                intro hmem
                obtain ⟨kv', hkv'm, hkv'1⟩ := List.mem_map.mp hmem
                have := hfresh' kv' hkv'm
                rw [hkv'1, getField_set_same s kv.1 kv.2 hka] at this
                exact absurd this (by simp)
              · intro kv' hm'
                rcases List.mem_cons.mp hm' with rfl | hm
                · simpa using hdup
                · by_cases hsame : kv'.1 = kv.1
                  · have := hfresh' kv' hm
                    rw [hsame, getField_set_same s kv.1 kv.2 hka] at this
                    exact absurd this (by simp)
                  · have := hfresh' kv' hm
                    rwa [getField_set_other s kv.1 kv'.1 kv.2 hka hsame] at this
            · rintro ⟨kvs, hmap, hcond, hnd, hfresh, hval⟩
              rcases kvs with _ | ⟨kv0, kvs'⟩
              · simp at hmap
              · simp only [List.map_cons, List.cons.injEq] at hmap
                rw [hde] at hmap
                have heq : kv = kv0 := by
                  have := hmap.1
                  injection this
                subst heq
                refine ⟨kvs', hmap.2, fun kv' hm => hcond kv' (.tail _ hm),
                  (List.nodup_cons.mp (by simpa using hnd)).2, ?_, hval⟩
                intro kv' hm
                have hne : kv'.1 ≠ kv.1 := by
                  intro hsame
                  have hmem : kv.1 ∈ kvs'.map Prod.fst :=
                    hsame ▸ List.mem_map_of_mem Prod.fst hm
                  exact (List.nodup_cons.mp (by simpa using hnd)).1 hmem
                rw [getField_set_other s kv.1 kv'.1 kv.2 hka hne]
                exact hfresh kv' (.tail _ hm)

theorem getField_empty (k : Str) : getField emptyDraft k = none := by
  unfold getField emptyDraft
  split_ifs <;> rfl

/-- C4 — the deterministic header validator never throws (every outcome is
`{valid:true, data}` or `{valid:false, error}`), and it accepts a block
exactly when the block starts with the literal `HDR` marker line and its body
lines decode to the five whitelisted keys, each exactly once (no duplicate,
no unknown key), each with a non-blank value, the date ISO-shaped — in any
line order.  Consequently a block missing one of the five keys, or with a
duplicate key, an unknown key, an empty value, or a non-ISO date is rejected
with an error. -/
theorem C4_header_validation :
    (∀ lines, (∃ d, parseHeaderLines lines = .ok d) ∨
              (∃ e, parseHeaderLines lines = .err e)) ∧
    (∀ lines, (∃ d, parseHeaderLines lines = .ok d) ↔
       (∃ kvs : List (Str × Str),
          lines.head? = some hdrMarker ∧
          lines.tail.map decodeEntry = kvs.map some ∧
          (∀ kv ∈ kvs, kv.1 ∈ allowedKeysL ∧ kv.2 ≠ []) ∧
          (kvs.map Prod.fst).Nodup ∧
          (∀ k ∈ allowedKeysL, ∃ v, (k, v) ∈ kvs) ∧
          (∀ v, (DATE_KEY, v) ∈ kvs → isIsoDate v = true))) := by
  constructor
  · intro lines
    rcases h : parseHeaderLines lines with d | e
    · exact Or.inl ⟨d, rfl⟩
    · exact Or.inr ⟨e, rfl⟩
  · intro lines
    rcases lines with _ | ⟨l, rest⟩
    · constructor
      · rintro ⟨d, hd⟩
        exact absurd hd (by simp [parseHeaderLines])
      · rintro ⟨kvs, hhead, -⟩
        exact absurd hhead (by simp)
    · by_cases hl : l = hdrMarker
      · subst hl
        have hpl : parseHeaderLines (hdrMarker :: rest) =
            processHeaderLines rest emptyDraft := by
          simp [parseHeaderLines]
        rw [hpl, processHeaderLines_ok_iff]
        constructor
        · rintro ⟨kvs, hmap, hcond, hnd, -, hval⟩
          have htrim : ∀ kv ∈ kvs, trimStr kv.2 = kv.2 := by
            intro kv hm
            have : some kv ∈ rest.map decodeEntry := by
              rw [hmap]
              exact List.mem_map_of_mem some hm
            obtain ⟨line, hline, hdec⟩ := List.mem_map.mp this
            exact decodeEntry_val_trimmed line kv hdec
          have := (validateHeaderData_merge_ok_iff kvs hcond htrim hnd).mp hval
          exact ⟨kvs, rfl, hmap, hcond, hnd, this.1, this.2⟩
        · rintro ⟨kvs, -, hmap, hcond, hnd, hfive, hiso⟩
          simp only [List.tail_cons] at hmap
          have htrim : ∀ kv ∈ kvs, trimStr kv.2 = kv.2 := by
            intro kv hm
            have : some kv ∈ rest.map decodeEntry := by
              rw [hmap]
              exact List.mem_map_of_mem some hm
            obtain ⟨line, hline, hdec⟩ := List.mem_map.mp this
            exact decodeEntry_val_trimmed line kv hdec
          refine ⟨kvs, hmap, hcond, hnd, fun kv _ => getField_empty kv.1, ?_⟩
          exact (validateHeaderData_merge_ok_iff kvs hcond htrim hnd).mpr ⟨hfive, hiso⟩
      · constructor
        · rintro ⟨d, hd⟩
          have : parseHeaderLines (l :: rest) = .err .missingHDR := by
            simp [parseHeaderLines, hl]
          rw [this] at hd
          exact absurd hd (by simp)
        · rintro ⟨kvs, hhead, -⟩
          simp only [List.head?_cons, Option.some.injEq] at hhead
          exact absurd hhead hl

/-- C4 witness: the characterization applied to a concrete valid block whose
five field lines are in scrambled order. -/
theorem C4_header_validation_witness :
    ∃ d, parseHeaderLines (splitLines scrambledHeaderMsg) = .ok d := by
  refine (C4_header_validation.2 (splitLines scrambledHeaderMsg)).mpr
    ⟨[(FOLLOWER_KEY, "Sok".toList), (DATE_KEY, "2025-01-02".toList),
      (PAGE_KEY, "FB".toList), (NAME_KEY, "Bob".toList),
      (PHONE_KEY, "012345678".toList)],
     by decide, by decide, by decide, by decide, ?_, ?_⟩
  · intro k hk
    fin_cases hk
    · exact ⟨"2025-01-02".toList, by decide⟩
    · exact ⟨"Bob".toList, by decide⟩
    · exact ⟨"012345678".toList, by decide⟩
    · exact ⟨"FB".toList, by decide⟩
    · exact ⟨"Sok".toList, by decide⟩
  · intro v hv
    simp only [List.mem_cons, List.not_mem_nil, or_false, Prod.mk.injEq] at hv
    rcases hv with ⟨h1, h2⟩ | ⟨h1, h2⟩ | ⟨h1, h2⟩ | ⟨h1, h2⟩ | ⟨h1, h2⟩
    · exact absurd h1 (by decide)
    · subst h2
      decide
    · exact absurd h1 (by decide)
    · exact absurd h1 (by decide)
    · exact absurd h1 (by decide)

theorem filter_orderedInsert {γ : Type} (r : γ → γ → Prop) [DecidableRel r]
    (htrans : ∀ a b c, r a b → r b c → r a c) (p : γ → Bool) (a : γ) :
    ∀ l : List γ, l.Sorted r →
      (l.orderedInsert r a).filter p =
        (if p a then (l.filter p).orderedInsert r a else l.filter p) := by
  intro l
  induction l with
  | nil =>
    intro _
    by_cases hp : p a <;> simp [List.orderedInsert, hp]
  | cons b t ih =>
    intro hs
    rw [List.orderedInsert]
    by_cases hr : r a b
    · rw [if_pos hr]
      by_cases hp : p a
      · rw [if_pos hp, List.filter_cons_of_pos hp]
        rcases hf : (b :: t).filter p with _ | ⟨c, rest⟩
        · rfl
        · have hcmem : c ∈ (b :: t).filter p := by
            rw [hf]
            exact .head _
          have hc : c ∈ b :: t := List.mem_of_mem_filter hcmem
          have hrac : r a c := by
            rcases List.mem_cons.mp hc with rfl | hct
            · exact hr
            · exact htrans _ _ _ hr (List.rel_of_sorted_cons hs c hct)
          exact (List.orderedInsert_of_le r rest hrac).symm
      · rw [if_neg hp, List.filter_cons_of_neg (by simpa using hp)]
    · rw [if_neg hr]
      have iht := ih hs.of_cons
      by_cases hpb : p b
      · rw [List.filter_cons_of_pos hpb, List.filter_cons_of_pos hpb]
        by_cases hp : p a
        · rw [if_pos hp, List.orderedInsert, if_neg hr, iht, if_pos hp]
        · rw [if_neg hp, iht, if_neg hp]
      · rw [List.filter_cons_of_neg (by simpa using hpb),
            List.filter_cons_of_neg (by simpa using hpb)]
        by_cases hp : p a
        · rw [if_pos hp, iht, if_pos hp]
        · rw [if_neg hp, iht, if_neg hp]

theorem filter_insertionSort {γ : Type} (r : γ → γ → Prop) [DecidableRel r]
    [IsTotal γ r] [IsTrans γ r] (p : γ → Bool) :
    ∀ l : List γ, (l.insertionSort r).filter p = (l.filter p).insertionSort r := by
  intro l
  induction l with
  | nil => rfl
  | cons a t ih =>
    rw [List.insertionSort,
      filter_orderedInsert r (fun x y z => IsTrans.trans x y z) p a _
        (List.sorted_insertionSort r t), ih]
    by_cases hp : p a
    · rw [if_pos hp, List.filter_cons_of_pos hp, List.insertionSort]
    · rw [if_neg hp, List.filter_cons_of_neg (by simpa using hp)]

theorem orderedInsert_congr {γ : Type} (r r' : γ → γ → Prop) [DecidableRel r]
    [DecidableRel r'] (a : γ) :
    ∀ l : List γ, (∀ b ∈ l, (r a b ↔ r' a b)) →
      l.orderedInsert r a = l.orderedInsert r' a := by
  intro l
  induction l with
  | nil => intro _; rfl
  | cons b t ih =>
    intro h
    rw [List.orderedInsert, List.orderedInsert]
    by_cases hr : r a b
    · rw [if_pos hr, if_pos ((h b (.head _)).mp hr)]
    · rw [if_neg hr, if_neg (fun hr' => hr ((h b (.head _)).mpr hr')),
          ih (fun c hc => h c (.tail _ hc))]

theorem insertionSort_congr {γ : Type} (r r' : γ → γ → Prop) [DecidableRel r]
    [DecidableRel r'] :
    ∀ l : List γ, (∀ a ∈ l, ∀ b ∈ l, (r a b ↔ r' a b)) →
      l.insertionSort r = l.insertionSort r' := by
  intro l
  induction l with
  | nil => intro _; rfl
  | cons a t ih =>
    intro h
    rw [List.insertionSort, List.insertionSort,
      ih (fun x hx y hy => h x (.tail _ hx) y (.tail _ hy))]
    refine orderedInsert_congr r r' a _ (fun b hb => ?_)
    have hbt : b ∈ t := (List.mem_insertionSort r').mp hb
    exact h a (.head _) b (.tail _ hbt)

/-- Within one phone group the full `$sort` key collapses to the
chronological `(date, created_at)` key. -/
theorem sortKeyLe_iff_dcLe_of_phone_eq (a b : LeadEventDocument)
    (h : a.customer.phone = b.customer.phone) : (sortKeyLe a b ↔ dcLe a b) := by
  have hk : phoneKey a = phoneKey b := by
    unfold phoneKey
    rw [h]
  unfold sortKeyLe lexBy
  rw [hk]
  simp [lt_irrefl]

/-- The `$group` stage's per-key document list: filtering the
`(phone, date, created_at)`-sorted events on one phone key is the same as
chronologically sorting that phone's matched events. -/
theorem filter_sorted_eq_phoneGroup (matched : List LeadEventDocument)
    (p : Option Str) :
    (matched.insertionSort sortKeyLe).filter
        (fun e => decide (e.customer.phone = p)) = phoneGroup p matched := by
  rw [filter_insertionSort sortKeyLe]
  unfold phoneGroup
  refine insertionSort_congr sortKeyLe dcLe _ (fun a ha b hb => ?_)
  have hpa : a.customer.phone = p := by simpa using (List.mem_filter.mp ha).2
  have hpb : b.customer.phone = p := by simpa using (List.mem_filter.mp hb).2
  exact sortKeyLe_iff_dcLe_of_phone_eq a b (hpa.trans hpb.symm)

/-- Every case produced by the shared aggregation stages is `mkCase` of its
own (non-empty) chronological phone group. -/
theorem aggregateCases_mem_spec (matched : List LeadEventDocument)
    (c : CustomerCase) (hc : c ∈ aggregateCases matched) :
    c = mkCase c.phone (phoneGroup c.phone matched) ∧
      phoneGroup c.phone matched ≠ [] := by
  unfold aggregateCases at hc
  rw [List.mem_insertionSort] at hc
  obtain ⟨p, hp, hcp⟩ := List.mem_map.mp hc
  rw [filter_sorted_eq_phoneGroup matched p] at hcp
  have hphone : c.phone = p := by
    rw [← hcp]
    rfl
  subst hphone
  refine ⟨hcp.symm, ?_⟩
  rw [List.mem_dedup] at hp
  obtain ⟨e, he, hep⟩ := List.mem_map.mp hp
  have hem : e ∈ matched := (List.mem_insertionSort sortKeyLe).mp he
  have hef : e ∈ matched.filter (fun e => decide (e.customer.phone = c.phone)) :=
    List.mem_filter.mpr ⟨hem, by simpa using hep⟩
  have : e ∈ phoneGroup c.phone matched := by
    unfold phoneGroup
    rw [List.mem_insertionSort]
    exact hef
  exact List.ne_nil_of_mem this

/-- C2 — for every phone group, after sorting by `(date, created_at)`
ascending (stable), the aggregated case takes its entire current snapshot
(name, page, follower, status, reason) from the single chronologically last
event of the group, `first_contact_date` from the chronologically first
event, `total_events` is the group size, the history is the full ordered
group, and the resulting case collection is sorted by `last_update_date`
descending. -/
theorem C2_current_snapshot (nowYM : Nat × Nat) (follower month : Str)
    (evs : List LeadEventDocument) :
    (buildCasesByFollowerAndMonthPipeline nowYM follower month evs).Sorted caseDescLe ∧
    ∀ c ∈ buildCasesByFollowerAndMonthPipeline nowYM follower month evs,
      ∃ hg : phoneGroup c.phone (matchedByFollowerAndMonth nowYM follower month evs) ≠ [],
        (phoneGroup c.phone (matchedByFollowerAndMonth nowYM follower month evs)).Sorted dcLe ∧
        List.Perm
          (phoneGroup c.phone (matchedByFollowerAndMonth nowYM follower month evs))
          ((matchedByFollowerAndMonth nowYM follower month evs).filter
            (fun e => decide (e.customer.phone = c.phone))) ∧
        c.name = ((phoneGroup c.phone (matchedByFollowerAndMonth nowYM follower month evs)).getLast hg).customer.name ∧
        c.page = ((phoneGroup c.phone (matchedByFollowerAndMonth nowYM follower month evs)).getLast hg).page ∧
        c.follower = ((phoneGroup c.phone (matchedByFollowerAndMonth nowYM follower month evs)).getLast hg).follower ∧
        c.current_reason_code = ((phoneGroup c.phone (matchedByFollowerAndMonth nowYM follower month evs)).getLast hg).reason_code ∧
        c.current_status = ifNull
          ((phoneGroup c.phone (matchedByFollowerAndMonth nowYM follower month evs)).getLast hg).reason_code
          ((phoneGroup c.phone (matchedByFollowerAndMonth nowYM follower month evs)).getLast hg).status_text ∧
        c.last_update_date = ((phoneGroup c.phone (matchedByFollowerAndMonth nowYM follower month evs)).getLast hg).date ∧
        c.first_contact_date = ((phoneGroup c.phone (matchedByFollowerAndMonth nowYM follower month evs)).head hg).date ∧
        c.total_events = (phoneGroup c.phone (matchedByFollowerAndMonth nowYM follower month evs)).length ∧
        c.history = (phoneGroup c.phone (matchedByFollowerAndMonth nowYM follower month evs)).map mkHistoryEntry := by
  constructor
  · unfold buildCasesByFollowerAndMonthPipeline aggregateCases
    exact List.sorted_insertionSort caseDescLe _
  · intro c hc
    obtain ⟨heq, hne⟩ := aggregateCases_mem_spec _ c hc
    refine ⟨hne, ?_, ?_, ?_⟩
    · unfold phoneGroup
      exact List.sorted_insertionSort dcLe _
    · unfold phoneGroup
      exact List.perm_insertionSort dcLe _
    · have hgl : (phoneGroup c.phone (matchedByFollowerAndMonth nowYM follower month evs)).getLast? =
          some ((phoneGroup c.phone (matchedByFollowerAndMonth nowYM follower month evs)).getLast hne) :=
        List.getLast?_eq_getLast _ hne
      have hhd : (phoneGroup c.phone (matchedByFollowerAndMonth nowYM follower month evs)).head? =
          some ((phoneGroup c.phone (matchedByFollowerAndMonth nowYM follower month evs)).head hne) :=
        List.head?_eq_head hne
      refine ⟨?_, ?_, ?_, ?_, ?_, ?_, ?_, ?_, ?_⟩ <;>
        (conv_lhs => rw [heq]) <;> simp [mkCase, hgl, hhd]

/-- C2 witness: the spec scenario — two events for phone `011` (arriving in
reverse order) aggregate to one case with the snapshot of the later event. -/
theorem C2_current_snapshot_witness :
    (scenarioPipeline.headD (mkCase none [])).total_events = 2 ∧
    (scenarioPipeline.headD (mkCase none [])).current_status = some "B".toList ∧
    (scenarioPipeline.headD (mkCase none [])).first_contact_date = "2025-01-01".toList ∧
    (scenarioPipeline.headD (mkCase none [])).last_update_date = "2025-01-05".toList ∧
    scenarioPipeline.Sorted caseDescLe := by
  obtain ⟨hg, hsorted, hperm, hfields⟩ :=
    (C2_current_snapshot (2025, 1) "F".toList "2025-01".toList
      [scenarioE2, scenarioE1]).2 (scenarioPipeline.headD (mkCase none []))
      (by decide)
  refine ⟨?_, ?_, ?_, ?_,
    (C2_current_snapshot (2025, 1) "F".toList "2025-01".toList
      [scenarioE2, scenarioE1]).1⟩
  · rw [hfields.2.2.2.2.2.2.2.1]
    decide
  · rw [hfields.2.2.2.2.1]
    rfl
  · rw [hfields.2.2.2.2.2.2.1]
    rfl
  · rw [hfields.2.2.2.2.2.1]
    rfl

/-- C1 counterexample — an event whose customer phone is missing *does*
appear in an aggregated case: both pipelines aggregate a matched phone-less
event into a case (keyed by the null phone) that carries it in its history
and counts it in `total_events`. -/
theorem C1_counterexample_phoneless_aggregated :
    noPhoneEvent.customer.phone = none ∧
    buildCasesByFollowerAndMonthPipeline (2025, 1) "F".toList "2025-01".toList
      [noPhoneEvent] = [mkCase none [noPhoneEvent]] ∧
    (mkCase none [noPhoneEvent]).total_events = 1 ∧
    (mkCase none [noPhoneEvent]).history = [mkHistoryEntry noPhoneEvent] ∧
    buildMonthlyCasesSummaryPipeline 2025 1 [noPhoneEvent] =
      [mkCase none [noPhoneEvent]] := by
  exact ⟨rfl, by decide, by decide, by decide, by decide⟩

/-- C1 (amended) — events lacking a phone are *not* discarded by the
case-aggregation pipelines: all matched phone-less events are aggregated
together into a single case whose phone is null (present exactly when at
least one such event matches), and they never appear in a case keyed by an
actual phone, since every case's history is built exclusively from the
events carrying that case's own phone key. -/
theorem C1_phoneless_events :
    (∀ nowYM f m evs, buildCasesByFollowerAndMonthPipeline nowYM f m evs =
       aggregateCases (matchedByFollowerAndMonth nowYM f m evs)) ∧
    (∀ y mo evs, buildMonthlyCasesSummaryPipeline y mo evs =
       aggregateCases (matchedByMonth y mo evs)) ∧
    (∀ matched : List LeadEventDocument,
       (matched.filter (fun e => decide (e.customer.phone = none)) ≠ [] →
          ∃ c ∈ aggregateCases matched, c.phone = none ∧
            c.total_events =
              (matched.filter (fun e => decide (e.customer.phone = none))).length ∧
            c.history = (phoneGroup none matched).map mkHistoryEntry) ∧
       (∀ c ∈ aggregateCases matched,
          c.history = (phoneGroup c.phone matched).map mkHistoryEntry ∧
          ∀ e ∈ phoneGroup c.phone matched, e.customer.phone = c.phone)) := by
  refine ⟨fun _ _ _ _ => rfl, fun _ _ _ => rfl, fun matched => ⟨?_, ?_⟩⟩
  · intro hne
    obtain ⟨e, he⟩ := List.exists_mem_of_ne_nil _ hne
    have hem : e ∈ matched := (List.mem_filter.mp he).1
    have hep : e.customer.phone = none := by
      simpa using (List.mem_filter.mp he).2
    refine ⟨mkCase none (phoneGroup none matched), ?_, rfl, ?_, rfl⟩
    · unfold aggregateCases
      rw [List.mem_insertionSort]
      have hkey : (none : Option Str) ∈
          ((matched.insertionSort sortKeyLe).map (·.customer.phone)).dedup := by
        rw [List.mem_dedup]
        refine List.mem_map.mpr ⟨e, ?_, hep⟩
        rw [List.mem_insertionSort]
        exact hem
      refine List.mem_map.mpr ⟨none, hkey, ?_⟩
      rw [filter_sorted_eq_phoneGroup matched none]
    · show (phoneGroup none matched).length = _
      unfold phoneGroup
      exact List.length_insertionSort dcLe _
  · intro c hc
    obtain ⟨heq, hne⟩ := aggregateCases_mem_spec matched c hc
    constructor
    · conv_lhs => rw [heq]
      rfl
    · intro e he
      have : e ∈ matched.filter (fun e => decide (e.customer.phone = c.phone)) := by
        unfold phoneGroup at he
        rw [List.mem_insertionSort] at he
        exact he
      simpa using (List.mem_filter.mp this).2

/-- C1 witness: the amended theorem at a concrete phone-less event. -/
theorem C1_phoneless_events_witness :
    ∃ c ∈ aggregateCases
        (matchedByFollowerAndMonth (2025, 1) "F".toList "2025-01".toList
          [noPhoneEvent]),
      c.phone = none ∧
      c.total_events = ((matchedByFollowerAndMonth (2025, 1) "F".toList
        "2025-01".toList [noPhoneEvent]).filter
          (fun e => decide (e.customer.phone = none))).length ∧
      c.history = (phoneGroup none (matchedByFollowerAndMonth (2025, 1)
        "F".toList "2025-01".toList [noPhoneEvent])).map mkHistoryEntry :=
  (C1_phoneless_events.2.2 _).1 (by decide)

end AuditReport
